import Mathlib

/-!
Verification of the channel-pruning pass (`src/qonnx/transformation/pruning.py`).

The Python module operates on an ONNX-style graph held by a `ModelWrapper`
collaborator.  We shallowly embed the module:

* A Python sparsity-mask set is a `Finset MElem`.  Python sets there mix
  plain integers (channel indices) with strings `"iX"` / `"oX"` (prefixed
  channel-role entries on weight tensors).  `MElem.n k` models the integer
  `k`, `MElem.i k` the string `"i" ++ toString k`, `MElem.o k` the string
  `"o" ++ toString k`, and `MElem.other s` models a string that starts with
  neither `"i"` nor `"o"` (strings such as `"iz"` that carry the prefix but
  no decimal suffix make Python's `int()` raise and are not modelled).
* The sparsity annotation store keeps exactly what was last stored: Python's
  `set_tensor_sparsity` writes either a set or the empty dict `\x7b\x7d`
  (used by `RemoveMaskedChannels` to clear a consumed mask), and
  `get_tensor_sparsity` reads it back verbatim (str/eval round trip in the
  model wrapper).  `SparVal.pyset s` models a stored set, `SparVal.emptyDict`
  the stored empty dict.  `none` models the absence of an annotation.
* Fallible Python code (raised exceptions) is modelled with
  `Except String`; the payload carries the exception class or the assertion
  message of the source.
* numpy arrays are `Tensor` values: a shape plus row-major flat data.
-/

/-- One element of a Python sparsity-mask set (see module docstring). -/
inductive MElem where
  /-- a plain Python integer channel index -/
  | n (k : Nat)
  /-- the string `"i" ++ toString k` (input-channel entry of a weight mask) -/
  | i (k : Nat)
  /-- the string `"o" ++ toString k` (output-channel entry of a weight mask) -/
  | o (k : Nat)
  /-- any other string, starting with neither `"i"` nor `"o"` -/
  | other (s : String)
deriving DecidableEq

/-- A Python sparsity-mask set. -/
abbrev Mask := Finset MElem

/-- A value stored in the sparsity-annotation store: either a Python set or
the empty dict `\x7b\x7d` written by `RemoveMaskedChannels` when clearing. -/
inductive SparVal where
  | pyset (s : Mask)
  | emptyDict
deriving DecidableEq

/-- A numpy array: shape plus row-major flat data (entries are opaque
numbers; only deletion patterns matter to the pass). -/
structure Tensor where
  shape : List Nat
  data : List Int
deriving DecidableEq

/-- number of dimensions (`ndarray.ndim`) -/
def Tensor.ndim (t : Tensor) : Nat := t.shape.length

/-- An ONNX node: name, operator type, ordered input/output tensor names and
the `group` attribute (`none` models an absent attribute; `get_by_name`
returns `None` in that case and the subsequent `.i` access raises). -/
structure Node where
  name : String
  op_type : String
  input : List String
  output : List String
  group : Option Nat
deriving DecidableEq

/-- The graph state threaded through the pass.  Modelled from the spec:
the `Model/Graph store` collaborator (`qonnx.core.modelwrapper`, not under
`src/`) offers fixed-order node enumeration and per-tensor get/set for
initializer data, shape and sparsity mask; get returns what set last stored. -/
structure Model where
  nodes : List Node
  sparsity : String → Option SparVal
  inits : String → Option Tensor
  shapes : String → List Nat

/-- Modelled from the spec: `ModelWrapper.get_tensor_sparsity` (not under
`src/`) — read back the stored sparsity annotation, `none` when absent. -/
def Model.get_tensor_sparsity (m : Model) (t : String) : Option SparVal :=
  m.sparsity t

/-- Modelled from the spec: `ModelWrapper.set_tensor_sparsity` (not under
`src/`) — store a sparsity annotation verbatim. -/
def Model.set_tensor_sparsity (m : Model) (t : String) (v : SparVal) : Model :=
  { m with sparsity := fun x => if x = t then some v else m.sparsity x }

/-- Modelled from the spec: `ModelWrapper.get_initializer` (not under
`src/`). -/
def Model.get_initializer (m : Model) (t : String) : Option Tensor :=
  m.inits t

/-- Modelled from the spec: `ModelWrapper.set_initializer` (not under
`src/`) — store the array and keep the recorded tensor shape in sync. -/
def Model.set_initializer (m : Model) (t : String) (v : Tensor) : Model :=
  { m with
    inits := fun x => if x = t then some v else m.inits x
    shapes := fun x => if x = t then v.shape else m.shapes x }

/-- Modelled from the spec: `ModelWrapper.get_tensor_shape` (not under
`src/`). -/
def Model.get_tensor_shape (m : Model) (t : String) : List Nat :=
  m.shapes t

/-- Modelled from the spec: `ModelWrapper.set_tensor_shape` (not under
`src/`). -/
def Model.set_tensor_shape (m : Model) (t : String) (s : List Nat) : Model :=
  { m with shapes := fun x => if x = t then s else m.shapes x }

/-- Modelled from the spec: `ModelWrapper.find_consumer` (not under `src/`)
— the first node in stored order consuming the named tensor. -/
def Model.find_consumer (m : Model) (t : String) : Option Node :=
  m.nodes.find? (fun n => t ∈ n.input)

/-- Replace the node at position `i` (models in-place mutation of a node's
attributes while iterating `model.graph.node`). -/
def Model.setNode (m : Model) (i : Nat) (nd : Node) : Model :=
  { m with nodes := m.nodes.set i nd }

/-- `eltwise_ops_bidirectional` (pruning.py line 42) -/
def eltwise_ops_bidirectional : List String :=
  ["Mul", "Div", "MultiThreshold", "Quant", "Relu"]

/-- `eltwise_ops_bwdonly` (pruning.py line 47) -/
def eltwise_ops_bwdonly : List String :=
  ["Add", "Sub", "BatchNormalization"]

/-- `ensure_masktype_is_set` (pruning.py lines 50-58): a set is returned as
is, `None` becomes the empty set, anything else (here: the cleared empty
dict) raises `Exception("Cannot turn ... into set")`. -/
def ensure_masktype_is_set : Option SparVal → Except String Mask
  | some (.pyset s) => .ok s
  | none => .ok ∅
  | some .emptyDict => .error "Cannot turn into set"

/-- `ensure_masktype_is_set` mapped over a list (list comprehensions at
pruning.py lines 83-84 and 168-169); the first raise aborts. -/
def ensure_list : List (Option SparVal) → Except String (List Mask)
  | [] => .ok []
  | x :: xs =>
    match ensure_masktype_is_set x, ensure_list xs with
    | .ok s, .ok ss => .ok (s :: ss)
    | .error e, _ => .error e
    | .ok _, .error e => .error e

/-- Is the element a plain Python integer?  (On integers the weight-mask
string operations `x.startswith`/`x.replace` raise `AttributeError`.) -/
def MElem.isInt : MElem → Bool
  | .n _ => true
  | _ => false

/-- `x.startswith("i")` for the modelled string elements. -/
def MElem.isIPref : MElem → Bool
  | .i _ => true
  | _ => false

/-- `x.startswith("o")` for the modelled string elements. -/
def MElem.isOPref : MElem → Bool
  | .o _ => true
  | _ => false

/-- The decoded channel index of a prefixed element (junk on others). -/
def MElem.idx : MElem → Nat
  | .n k => k
  | .i k => k
  | .o k => k
  | .other _ => 0

/-- Does the mask contain a plain integer element?  Decide point for the
`AttributeError` raised by `x.startswith` on an int. -/
def hasIntElem (s : Mask) : Prop := ∃ x ∈ s, x.isInt = true

instance (s : Mask) : Decidable (hasIntElem s) := by
  unfold hasIntElem; infer_instance

/-- `set of int(x.replace("i", "")) for x in s if x.startswith("i")`
(pruning.py line 111), as the set of re-wrapped integer elements.  The
caller must rule out integer elements (`hasIntElem`) first. -/
def decode_i (s : Mask) : Mask :=
  (s.filter (fun e => e.isIPref = true)).image (fun e => .n e.idx)

/-- `set of int(x.replace("o", "")) for x in s if x.startswith("o")`
(pruning.py line 112). -/
def decode_o (s : Mask) : Mask :=
  (s.filter (fun e => e.isOPref = true)).image (fun e => .n e.idx)

/-- The element-wise `"i%d" % x` image (meaningful on all-integer masks). -/
def encMap_i (s : Mask) : Mask :=
  s.image (fun e => match e with | .n k => .i k | x => x)

/-- The element-wise `"o%d" % x` image (meaningful on all-integer masks). -/
def encMap_o (s : Mask) : Mask :=
  s.image (fun e => match e with | .n k => .o k | x => x)

/-- `set of "i%d" % x for x in s` (pruning.py line 125): every element must
be a plain integer, otherwise the `%d` format raises `TypeError`. -/
def encode_i (s : Mask) : Except String Mask :=
  if ∀ x ∈ s, x.isInt = true then .ok (encMap_i s) else .error "TypeError"

/-- `set of "o%d" % x for x in s` (pruning.py lines 123 and 125). -/
def encode_o (s : Mask) : Except String Mask :=
  if ∀ x ∈ s, x.isInt = true then .ok (encMap_o s) else .error "TypeError"

/-- stride of `axis` in a row-major layout: product of the dims after it -/
def rowStride (shape : List Nat) (axis : Nat) : Nat :=
  (shape.drop (axis + 1)).prod

/-- the `axis` coordinate of the element at flat position `p` -/
def coordAt (shape : List Nat) (axis : Nat) (p : Nat) : Nat :=
  (p / rowStride shape axis) % shape.getD axis 1

/-- `np.delete(t, idxs, axis)`: drop the slices whose `axis` coordinate is
listed.  numpy raises on a non-integer index array, an out-of-range index or
an out-of-range axis. -/
def npDelete (t : Tensor) (idxs : Mask) (axis : Nat) : Except String Tensor :=
  if ¬ (∀ x ∈ idxs, x.isInt = true) then .error "IndexError"
  else if h : axis < t.shape.length then
    let dim := t.shape.get ⟨axis, h⟩
    if ¬ (∀ x ∈ idxs, x.idx < dim) then .error "IndexError"
    else
      .ok ⟨t.shape.set axis (dim - idxs.card),
           ((List.range t.data.length).filterMap (fun p =>
             if MElem.n (coordAt t.shape axis p) ∈ idxs then none
             else t.data.get? p))⟩
  else .error "AxisError"

/-- `remove_masked_tensor_channels` (pruning.py lines 61-79), array case:
a 0-dim array or one with a single element in total is returned unmodified
("no pruning for scalar properties"), otherwise `np.delete` runs. -/
def remove_masked_tensor_channels (t : Tensor) (mask : Mask) (axis : Nat) :
    Except String Tensor :=
  if t.ndim = 0 ∨ t.shape.prod = 1 then .ok t
  else npDelete t mask axis

/-- `remove_masked_tensor_channels` shape-only case: the shape is blown up
into `np.random.rand(*shape)` and the result's shape is returned.  (A
zero-dim shape would make `np.random.rand` return a float and trip the
ndarray assert; no claim exercises that corner.) -/
def remove_masked_shape_channels (shp : List Nat) (mask : Mask) (axis : Nat) :
    Except String (List Nat) :=
  match remove_masked_tensor_channels ⟨shp, List.replicate shp.prod 0⟩ mask axis with
  | .ok t => .ok t.shape
  | .error e => .error e

/-- `update_node_mask` (pruning.py lines 82-130). -/
def update_node_mask (node : Node) (masks_in_raw masks_out_raw : List (Option SparVal)) :
    Except String (List Mask × List Mask) :=
  match ensure_list masks_in_raw, ensure_list masks_out_raw with
  | .error e, _ => .error e
  | .ok _, .error e => .error e
  | .ok masks_in, .ok masks_out =>
    if node.op_type ∈ eltwise_ops_bidirectional then
      -- any i/o can mask any/all other i/o, so just take union
      let ret := (masks_in ++ masks_out).foldl (· ∪ ·) ∅
      .ok (masks_in.map (fun _ => ret), masks_out.map (fun _ => ret))
    else if node.op_type ∈ eltwise_ops_bwdonly then
      -- output can mask input but not other way around
      let ret := (masks_in ++ masks_out).foldl (· ∪ ·) ∅
      .ok (masks_in.map (fun _ => ret), masks_out)
    else if node.op_type ∈ ["MatMul", "Conv"] then
      match (if node.op_type = "Conv" then
               match node.group with
               | none => .error "AttributeError"   -- get_by_name found no group attribute
               | some g => .ok (decide (g > 1))
             else .ok false : Except String Bool) with
      | .error e => .error e
      | .ok is_depthwise =>
        match masks_in.get? 1 with
        | none => .error "IndexError"   -- masks_in[1]
        | some w_mask =>
          if hasIntElem w_mask then .error "AttributeError"  -- int has no startswith
          else
            let w_mask_in := decode_i w_mask
            let w_mask_out := decode_o w_mask
            match masks_in.get? 0, masks_out.get? 0 with
            | none, _ => .error "IndexError"
            | _, none => .error "IndexError"
            | some i_mask, some o_mask =>
              let mask_in := w_mask_in ∪ i_mask
              let mask_out := w_mask_out ∪ o_mask
              if is_depthwise then
                -- depthwise convs couple i<->o channels directly
                let mask_in := mask_in ∪ mask_out
                let mask_out := mask_in
                match encode_o mask_out with
                | .error e => .error e
                | .ok w_mask2 => .ok ([mask_in, w_mask2], [mask_out])
              else
                match encode_i mask_in, encode_o mask_out with
                | .error e, _ => .error e
                | .ok _, .error e => .error e
                | .ok wi, .ok wo => .ok ([mask_in, wi ∪ wo], [mask_out])
    else
      -- warnings.warn: cannot propagate through this op_type; masks unchanged
      .ok (masks_in, masks_out)

/-- Write a list of (tensor name, mask) pairs back into the sparsity store
(the `set_tensor_sparsity` loops at pruning.py lines 175-178). -/
def writeSpar (m : Model) (l : List (String × Mask)) : Model :=
  l.foldl (fun mm p => mm.set_tensor_sparsity p.1 (.pyset p.2)) m

/-- The loop body of `PropagateMasks.apply` (pruning.py lines 163-178) for
one node: read masks, normalize, run `update_node_mask`, compare, write the
updated masks back (`zip` truncates at the shorter list). -/
def propagate_node (m : Model) (node : Node) : Except String (Model × Bool) :=
  match ensure_list (node.input.map m.get_tensor_sparsity),
        ensure_list (node.output.map m.get_tensor_sparsity) with
  | .error e, _ => .error e
  | .ok _, .error e => .error e
  | .ok node_masks_in, .ok node_masks_out =>
    match update_node_mask node (node_masks_in.map (fun s => some (.pyset s)))
        (node_masks_out.map (fun s => some (.pyset s))) with
    | .error e => .error e
    | .ok (new_in, new_out) =>
      let changed := decide (new_in ≠ node_masks_in) || decide (new_out ≠ node_masks_out)
      .ok (writeSpar (writeSpar m (node.input.zip new_in)) (node.output.zip new_out),
           changed)

/-- `PropagateMasks.apply` (pruning.py lines 159-179): one forward sweep in
stored node order, OR-accumulating the changed flag. -/
def propagateMasksApply (m : Model) : Except String (Model × Bool) :=
  m.nodes.foldlM (fun acc node =>
    match propagate_node acc.1 node with
    | .error e => .error e
    | .ok (m', ch) => .ok (m', acc.2 || ch)) (m, false)

/-- Is the element a Python string? (`type(x) is str`) -/
def MElem.isStr : MElem → Bool
  | .n _ => false
  | _ => true

/-- The loop of `ApplyMasks.apply` (pruning.py lines 139-151), processing
prune-spec entries in stored order.  An entry naming the initializer-bearing
second input of a Conv/MatMul consumer is sanity-checked: `list(val)[0]`
must be a string formatted `iX` or `oX` (only that one element is looked
at).  A failed assert aborts, leaving the masks installed so far in place:
the partial model is returned together with the raised message. -/
def apply_masks_go (m : Model) : List (String × List MElem) → Model × Option String
  | [] => (m, none)
  | (key, val) :: rest =>
    let t_has_init := (m.get_initializer key).isSome
    let check : Option String :=
      match m.find_consumer key with
      | none => none
      | some c =>
        if c.op_type ∈ ["Conv", "MatMul"] then
          match c.input.get? 1 with
          | none => some "IndexError"   -- t_consumer.input[1] out of range
          | some second =>
            if second = key ∧ t_has_init then
              match val.head? with
              | none => some "IndexError"   -- list(val)[0] on an empty set
              | some v0 =>
                if v0.isStr = false then some "Weight masks must be strings"
                else if ¬ (v0.isIPref = true ∨ v0.isOPref = true) then
                  some "Weight masks must be formatted iX or oX"
                else none
            else none
        else none
    match check with
    | some e => (m, some e)
    | none => apply_masks_go (m.set_tensor_sparsity key (.pyset val.toFinset)) rest

/-- `ApplyMasks.apply` as a pipeline stage: a raised assert propagates out
(the partially mutated model is only observable through `apply_masks_go`);
on success the stage reports no further rerun. -/
def applyMasksApply (spec : List (String × List MElem)) (m : Model) :
    Except String (Model × Bool) :=
  match apply_masks_go m spec with
  | (m', none) => .ok (m', false)
  | (_, some e) => .error e

/-- The body of `RemoveMaskedChannels.apply` (pruning.py lines 189-240) for
one tensor reference of the node at position `i`: skip when the mask is
absent or the cleared empty dict; otherwise rewrite data/shape by the
branch matching the node kind, clear the mask and mark the sweep changed. -/
def remove_tensor (m : Model) (i : Nat) (ioname : String) (nr : Bool) :
    Except String (Model × Bool) :=
  match m.nodes.get? i with
  | none => .ok (m, nr)
  | some node =>
    let io_t := m.get_initializer ioname
    let io_shp := m.get_tensor_shape ioname
    match m.get_tensor_sparsity ioname with
    | none => .ok (m, nr)              -- mask is None
    | some .emptyDict => .ok (m, nr)   -- mask == the cleared empty dict
    | some (.pyset mask) =>
      let step : Except String Model :=
        match io_t with
        | none =>
          -- dynamic input/output, no initializer: compute new shape only
          match remove_masked_shape_channels io_shp mask 1 with
          | .error e => .error e
          | .ok new_shp => .ok (m.set_tensor_shape ioname new_shp)
        | some t =>
          if node.op_type ∈ ["MatMul"] then
            if hasIntElem mask then .error "AttributeError"
            else
              let i_mask := decode_i mask
              let o_mask := decode_o mask
              -- for MatMul weights, input axis is 0, output is 1
              match remove_masked_tensor_channels t i_mask 0 with
              | .error e => .error e
              | .ok t1 =>
                match remove_masked_tensor_channels t1 o_mask 1 with
                | .error e => .error e
                | .ok t2 => .ok (m.set_initializer ioname t2)
          else if node.op_type ∈ ["Conv"] then
            if hasIntElem mask then .error "AttributeError"
            else
              let i_mask := decode_i mask
              let o_mask := decode_o mask
              match io_shp.get? 1 with
              | none => .error "IndexError"     -- io_shp[1]
              | some ifm_w =>
                match node.group with
                | none => .error "AttributeError"  -- group attribute absent
                | some groups =>
                  if ¬ (groups = 1 ∨ ifm_w = 1) then
                    .error "Unknown grouped conv setting"
                  else if groups > 1 then
                    -- depthwise convs only use the o_mask by convention
                    match remove_masked_tensor_channels t o_mask 0 with
                    | .error e => .error e
                    | .ok new_t =>
                      match new_t.shape.get? 0 with
                      | none => .error "IndexError"  -- new_t.shape[0]
                      | some nchans =>
                        -- update the group attribute to match the new n chans
                        .ok ((m.setNode i { node with group := some nchans
                             }).set_initializer ioname new_t)
                  else
                    -- dense Conv weights: input (ifm) axis 1, output (ofm) axis 0
                    match remove_masked_tensor_channels t i_mask 1 with
                    | .error e => .error e
                    | .ok t1 =>
                      match remove_masked_tensor_channels t1 o_mask 0 with
                      | .error e => .error e
                      | .ok t2 => .ok (m.set_initializer ioname t2)
          else
            let axis := if t.ndim ≥ 2 then 1 else 0
            match remove_masked_tensor_channels t mask axis with
            | .error e => .error e
            | .ok new_t => .ok (m.set_initializer ioname new_t)
      match step with
      | .error e => .error e
      | .ok m' =>
        -- clear sparsity annotation since it's already handled
        .ok (m'.set_tensor_sparsity ioname .emptyDict, true)

/-- `RemoveMaskedChannels.apply` (pruning.py lines 186-241): visit every
node's input and output tensors in stored order (re-reading the node so an
updated group attribute is observed). -/
def removeMaskedChannelsApply (m : Model) : Except String (Model × Bool) :=
  (List.range m.nodes.length).foldlM (fun acc i =>
    match acc.1.nodes.get? i with
    | none => .ok acc
    | some node =>
      (node.input ++ node.output).foldlM
        (fun acc2 ioname => remove_tensor acc2.1 i ioname acc2.2) acc) (m, false)

/-- Modelled from the spec: `ModelWrapper.transform` (qonnx.core.modelwrapper,
not under `src/`) runs a pipeline stage on the model and yields the
transformed model; per spec §4.4 the orchestrator runs each stage exactly
once per invocation, the multi-round fixpoint being the external driver's
responsibility (§6). -/
def Model.transform (m : Model) (stage : Model → Except String (Model × Bool)) :
    Except String Model :=
  match stage m with
  | .error e => .error e
  | .ok (m', _) => .ok m'

/-- Modelled from the spec: `ModelWrapper.get_nodes_by_op_type` (not under
`src/`) — the nodes of the given operator kind in stored order. -/
def get_nodes_by_op_type (m : Model) (op : String) : List Node :=
  m.nodes.filter (fun n => n.op_type = op)

/-- The list comprehension at pruning.py line 257: dot-product nodes whose
second input carries no initializer (`x.input[1]` raises when absent). -/
def dyn_weight_nodes (m : Model) : List Node → Except String (List Node)
  | [] => .ok []
  | n :: ns =>
    match n.input.get? 1 with
    | none => .error "IndexError"
    | some w =>
      match dyn_weight_nodes m ns with
      | .error e => .error e
      | .ok rest => .ok (if (m.get_initializer w).isNone then n :: rest else rest)

/-- `PruneChannels.apply` (pruning.py lines 249-265): precondition checks
(no fused-bias convs, static dot-product weights), then one transform per
stage — Seeding, Propagation, Removal — and a `False` changed flag. -/
def pruneChannelsApply (spec : List (String × List MElem)) (m : Model) :
    Except String (Model × Bool) :=
  let conv_nodes := get_nodes_by_op_type m "Conv"
  let matmul_nodes := get_nodes_by_op_type m "MatMul"
  let convs_with_bias := conv_nodes.filter (fun n => n.input.length = 3)
  if convs_with_bias ≠ [] then
    .error ("Please extract bias from Conv nodes: " ++
      String.intercalate ", " (convs_with_bias.map Node.name))
  else
    match dyn_weight_nodes m (conv_nodes ++ matmul_nodes) with
    | .error e => .error e
    | .ok dyn =>
      if dyn ≠ [] then
        .error ("Please ensure MatMul and Conv nodes have static weights: " ++
          String.intercalate ", " (dyn.map Node.name))
      else
        match Model.transform m (applyMasksApply spec) with
        | .error e => .error e
        | .ok m1 =>
          match Model.transform m1 propagateMasksApply with
          | .error e => .error e
          | .ok m2 =>
            match Model.transform m2 removeMaskedChannelsApply with
            | .error e => .error e
            | .ok m3 => .ok (m3, false)

deriving instance DecidableEq for Except

/-- The mask value a tensor's annotation denotes in propagation comparisons:
a stored set reads as itself, anything else as the empty set. -/
def ensureSet : Option SparVal → Mask
  | some (.pyset s) => s
  | _ => ∅

/-- The (normalized) mask of a tensor in a model. -/
def sparSet (m : Model) (t : String) : Mask := ensureSet (m.sparsity t)

/-- Projection: the error payload of a stage result, `none` on success. -/
def exErr {α : Type} : Except String α → Option String
  | .ok _ => none
  | .error e => some e

/-- Projection: the changed flag of a successful stage result. -/
def exFlag : Except String (Model × Bool) → Option Bool
  | .ok (_, b) => some b
  | .error _ => none

/-- Projection: the stored sparsity value of a tensor after a stage. -/
def exSpar (t : String) : Except String (Model × Bool) → Option (Option SparVal)
  | .ok (m, _) => some (m.sparsity t)
  | .error _ => none

/-- Projection: the initializer of a tensor after a stage. -/
def exInit (t : String) : Except String (Model × Bool) → Option (Option Tensor)
  | .ok (m, _) => some (m.inits t)
  | .error _ => none

/-- Projection: the recorded shape of a tensor after a stage. -/
def exShape (t : String) : Except String (Model × Bool) → Option (List Nat)
  | .ok (m, _) => some (m.shapes t)
  | .error _ => none

/-! ### Basic lemmas about the store and the mask helpers -/

theorem sparsity_set_spar (m : Model) (t : String) (v : SparVal) (x : String) :
    (m.set_tensor_sparsity t v).sparsity x = if x = t then some v else m.sparsity x := rfl

theorem nodes_set_spar (m : Model) (t : String) (v : SparVal) :
    (m.set_tensor_sparsity t v).nodes = m.nodes := rfl

theorem inits_set_spar (m : Model) (t : String) (v : SparVal) :
    (m.set_tensor_sparsity t v).inits = m.inits := rfl

theorem shapes_set_spar (m : Model) (t : String) (v : SparVal) :
    (m.set_tensor_sparsity t v).shapes = m.shapes := rfl

theorem ensure_eq_ok (v : Option SparVal) (h : v ≠ some .emptyDict) :
    ensure_masktype_is_set v = .ok (ensureSet v) := by
  match v with
  | none => rfl
  | some (.pyset s) => rfl
  | some .emptyDict => exact absurd rfl h

theorem ensure_ok_inv (v : Option SparVal) (s : Mask)
    (h : ensure_masktype_is_set v = .ok s) : s = ensureSet v := by
  match v with
  | none => simpa [ensure_masktype_is_set, ensureSet] using h.symm
  | some (.pyset u) => simpa [ensure_masktype_is_set, ensureSet] using h.symm
  | some .emptyDict => simp [ensure_masktype_is_set] at h

theorem ensure_list_ok_inv (l : List (Option SparVal)) (l' : List Mask)
    (h : ensure_list l = .ok l') : l' = l.map ensureSet := by
  induction l generalizing l' with
  | nil => simpa [ensure_list] using h.symm
  | cons x xs ih =>
    revert h
    unfold ensure_list
    rcases hx : ensure_masktype_is_set x with e | s
    · intro h; exact absurd h (by simp)
    · rcases hxs : ensure_list xs with e | ss
      · intro h; exact absurd h (by simp)
      · intro h
        simp only [Except.ok.injEq] at h
        subst h
        simp [List.map_cons, ← ih ss hxs, ensure_ok_inv x s hx]

theorem ensure_list_map_pyset (l : List Mask) :
    ensure_list (l.map (fun s => some (.pyset s))) = .ok l := by
  induction l with
  | nil => rfl
  | cons x xs ih => simp [ensure_list, ih, ensure_masktype_is_set]

theorem subset_foldl_union_init (l : List Mask) (init : Mask) :
    init ⊆ l.foldl (· ∪ ·) init := by
  induction l generalizing init with
  | nil => exact fun x h => h
  | cons a l ih =>
    exact fun x hx => ih (init ∪ a) (Finset.mem_union_left a hx)

theorem subset_foldl_union (l : List Mask) (init : Mask) (s : Mask) (h : s ∈ l) :
    s ⊆ l.foldl (· ∪ ·) init := by
  induction l generalizing init with
  | nil => cases h
  | cons a l ih =>
    rcases List.mem_cons.mp h with rfl | h
    · exact fun x hx =>
        subset_foldl_union_init l (init ∪ s) (Finset.mem_union_right init hx)
    · exact ih (init ∪ a) h

theorem writeSpar_nodes (m : Model) (l : List (String × Mask)) :
    (writeSpar m l).nodes = m.nodes := by
  induction l generalizing m with
  | nil => rfl
  | cons p l ih => simpa [writeSpar] using ih (m.set_tensor_sparsity p.1 (.pyset p.2))

theorem writeSpar_inits (m : Model) (l : List (String × Mask)) :
    (writeSpar m l).inits = m.inits := by
  induction l generalizing m with
  | nil => rfl
  | cons p l ih => simpa [writeSpar] using ih (m.set_tensor_sparsity p.1 (.pyset p.2))

theorem writeSpar_shapes (m : Model) (l : List (String × Mask)) :
    (writeSpar m l).shapes = m.shapes := by
  induction l generalizing m with
  | nil => rfl
  | cons p l ih => simpa [writeSpar] using ih (m.set_tensor_sparsity p.1 (.pyset p.2))

/-- The sparsity value after a write-back run: the last write to `t` wins;
when every pair named `t` carries the same mask `v` this is `v`. -/
theorem writeSpar_sparsity (m : Model) (l : List (String × Mask)) (t : String)
    (v : Mask) (hv : ∀ p ∈ l, p.1 = t → p.2 = v) :
    (writeSpar m l).sparsity t =
      if ∃ p ∈ l, p.1 = t then some (.pyset v) else m.sparsity t := by
  induction l generalizing m with
  | nil => simp [writeSpar]
  | cons p l ih =>
    have step : writeSpar m (p :: l) = writeSpar (m.set_tensor_sparsity p.1 (.pyset p.2)) l := rfl
    rw [step, ih _ (fun q hq => hv q (List.mem_cons_of_mem p hq))]
    by_cases hmem : ∃ q ∈ l, q.1 = t
    · rw [if_pos hmem, if_pos ⟨_, List.mem_cons_of_mem p hmem.choose_spec.1,
        hmem.choose_spec.2⟩]
    · rw [if_neg hmem, sparsity_set_spar]
      by_cases hp : p.1 = t
      · rw [if_pos hp.symm, if_pos ⟨p, List.mem_cons_self p l, hp⟩,
          hv p (List.mem_cons_self p l) hp]
      · rw [if_neg (fun hh => hp hh.symm), if_neg]
        rintro ⟨q, hq, hq1⟩
        rcases List.mem_cons.mp hq with rfl | hq
        · exact hp hq1
        · exact hmem ⟨q, hq, hq1⟩

theorem writeSpar_sparsity_not_mem (m : Model) (l : List (String × Mask)) (t : String)
    (h : ∀ p ∈ l, p.1 ≠ t) : (writeSpar m l).sparsity t = m.sparsity t := by
  rw [writeSpar_sparsity m l t ∅ (fun p hp hpt => absurd hpt (h p hp))]
  rw [if_neg]
  rintro ⟨q, hq, hq1⟩
  exact h q hq hq1

theorem snd_of_mem_zip_map (l : List String) (f : String → Mask) (p : String × Mask)
    (h : p ∈ l.zip (l.map f)) : p.2 = f p.1 := by
  induction l with
  | nil => cases h
  | cons a l ih =>
    rcases List.mem_cons.mp h with h1 | h1
    · rw [h1]
    · exact ih h1

theorem exists_zip_pair (l1 : List String) (l2 : List Mask) (t : String)
    (hmem : t ∈ l1) (hlen : l1.length ≤ l2.length) :
    ∃ p ∈ l1.zip l2, p.1 = t := by
  induction l1 generalizing l2 with
  | nil => cases hmem
  | cons a l ih =>
    match l2 with
    | [] => simp at hlen
    | b :: l2 =>
      rcases List.mem_cons.mp hmem with rfl | hmem
      · exact ⟨(t, b), List.mem_cons_self _ _, rfl⟩
      · obtain ⟨p, hp, hp1⟩ := ih l2 hmem (Nat.le_of_succ_le_succ hlen)
        exact ⟨p, List.mem_cons_of_mem _ hp, hp1⟩

theorem snd_of_mem_zip_const (l1 : List String) (l2 : List Mask) (v : Mask)
    (p : String × Mask) (h : p ∈ l1.zip (l2.map (fun _ => v))) : p.2 = v := by
  have h2 := (List.of_mem_zip h).2
  rcases List.mem_map.mp h2 with ⟨a, _, ha⟩
  exact ha.symm

/-! ### Decode/encode lemmas -/

theorem mem_decode_i (s : Mask) (k : Nat) : MElem.n k ∈ decode_i s ↔ MElem.i k ∈ s := by
  unfold decode_i
  simp only [Finset.mem_image, Finset.mem_filter]
  constructor
  · rintro ⟨e, ⟨hes, hP⟩, hek⟩
    match e with
    | .i j => simp only [MElem.idx, MElem.n.injEq] at hek; rwa [← hek]
    | .n j | .o j | .other u => simp [MElem.isIPref] at hP
  · intro h
    exact ⟨.i k, ⟨h, rfl⟩, rfl⟩

theorem mem_decode_o (s : Mask) (k : Nat) : MElem.n k ∈ decode_o s ↔ MElem.o k ∈ s := by
  unfold decode_o
  simp only [Finset.mem_image, Finset.mem_filter]
  constructor
  · rintro ⟨e, ⟨hes, hP⟩, hek⟩
    match e with
    | .o j => simp only [MElem.idx, MElem.n.injEq] at hek; rwa [← hek]
    | .n j | .i j | .other u => simp [MElem.isOPref] at hP
  · intro h
    exact ⟨.o k, ⟨h, rfl⟩, rfl⟩

theorem decode_i_all_int (s : Mask) : ∀ x ∈ decode_i s, x.isInt = true := by
  intro x hx
  rcases Finset.mem_image.mp hx with ⟨e, _, he⟩
  rw [← he]; rfl

theorem decode_o_all_int (s : Mask) : ∀ x ∈ decode_o s, x.isInt = true := by
  intro x hx
  rcases Finset.mem_image.mp hx with ⟨e, _, he⟩
  rw [← he]; rfl

theorem mem_encMap_i_of (s : Mask) (k : Nat) (h : MElem.n k ∈ s) :
    MElem.i k ∈ encMap_i s :=
  Finset.mem_image.mpr ⟨.n k, h, rfl⟩

theorem mem_encMap_o_of (s : Mask) (k : Nat) (h : MElem.n k ∈ s) :
    MElem.o k ∈ encMap_o s :=
  Finset.mem_image.mpr ⟨.n k, h, rfl⟩

theorem mem_encMap_o_iff (s : Mask) (hall : ∀ x ∈ s, x.isInt = true) (e : MElem) :
    e ∈ encMap_o s ↔ ∃ k, e = MElem.o k ∧ MElem.n k ∈ s := by
  unfold encMap_o
  simp only [Finset.mem_image]
  constructor
  · rintro ⟨a, ha, hae⟩
    match a with
    | .n k => exact ⟨k, hae.symm, ha⟩
    | .i k | .o k | .other u => exact absurd (hall _ ha) (by simp [MElem.isInt])
  · rintro ⟨k, rfl, hk⟩
    exact ⟨.n k, hk, rfl⟩

theorem decode_o_encMap_o (s : Mask) (hall : ∀ x ∈ s, x.isInt = true) :
    decode_o (encMap_o s) = s := by
  apply Finset.ext
  intro e
  constructor
  · intro he
    have hint := decode_o_all_int (encMap_o s) e he
    match e with
    | .n k =>
      have := (mem_decode_o _ k).mp he
      rcases (mem_encMap_o_iff s hall _).mp this with ⟨j, hj, hjs⟩
      simp only [MElem.o.injEq] at hj
      rwa [hj]
    | .i k | .o k | .other u => simp [MElem.isInt] at hint
  · intro he
    have hint := hall e he
    match e with
    | .n k => exact (mem_decode_o _ k).mpr (mem_encMap_o_of s k he)
    | .i k | .o k | .other u => simp [MElem.isInt] at hint

theorem decode_i_encMap_o (s : Mask) (hall : ∀ x ∈ s, x.isInt = true) :
    decode_i (encMap_o s) = ∅ := by
  apply Finset.eq_empty_of_forall_not_mem
  intro e he
  have hint := decode_i_all_int (encMap_o s) e he
  match e with
  | .n k =>
    have := (mem_decode_i _ k).mp he
    rcases (mem_encMap_o_iff s hall _).mp this with ⟨j, hj, _⟩
    cases hj
  | .i k | .o k | .other u => simp [MElem.isInt] at hint

theorem encode_i_eq_ok (s : Mask) (hall : ∀ x ∈ s, x.isInt = true) :
    encode_i s = .ok (encMap_i s) := by
  unfold encode_i; rw [if_pos hall]

theorem encode_o_eq_ok (s : Mask) (hall : ∀ x ∈ s, x.isInt = true) :
    encode_o s = .ok (encMap_o s) := by
  unfold encode_o; rw [if_pos hall]

theorem encode_i_ok_inv (s w : Mask) (h : encode_i s = .ok w) :
    (∀ x ∈ s, x.isInt = true) ∧ w = encMap_i s := by
  revert h; unfold encode_i
  by_cases hall : ∀ x ∈ s, x.isInt = true
  · rw [if_pos hall]; intro h; injection h with h; exact ⟨hall, h.symm⟩
  · rw [if_neg hall]; intro h; exact absurd h (by simp)

theorem encode_o_ok_inv (s w : Mask) (h : encode_o s = .ok w) :
    (∀ x ∈ s, x.isInt = true) ∧ w = encMap_o s := by
  revert h; unfold encode_o
  by_cases hall : ∀ x ∈ s, x.isInt = true
  · rw [if_pos hall]; intro h; injection h with h; exact ⟨hall, h.symm⟩
  · rw [if_neg hall]; intro h; exact absurd h (by simp)

/-- The union of all (normalized) input and output masks of a node — the
`ret` of pruning.py lines 89 and 94. -/
def bigU (m : Model) (node : Node) : Mask :=
  ((node.input ++ node.output).map (sparSet m)).foldl (· ∪ ·) ∅

theorem sparSet_map_get (m : Model) (l : List String) :
    (l.map m.get_tensor_sparsity).map ensureSet = l.map (sparSet m) := by
  rw [List.map_map]; rfl

theorem propagate_node_ok_inv (m : Model) (node : Node) (nm : Model) (r : Bool)
    (h : propagate_node m node = .ok (nm, r)) :
    ∃ new_in new_out,
      update_node_mask node ((node.input.map (sparSet m)).map (fun s => some (.pyset s)))
        ((node.output.map (sparSet m)).map (fun s => some (.pyset s))) = .ok (new_in, new_out) ∧
      nm = writeSpar (writeSpar m (node.input.zip new_in)) (node.output.zip new_out) := by
  unfold propagate_node at h
  rcases hin : ensure_list (node.input.map m.get_tensor_sparsity) with e | li <;>
    rw [hin] at h
  · simp at h
  rcases hout : ensure_list (node.output.map m.get_tensor_sparsity) with e | lo <;>
    rw [hout] at h
  · simp at h
  have hli : li = node.input.map (sparSet m) := by
    rw [ensure_list_ok_inv _ _ hin, sparSet_map_get]
  have hlo : lo = node.output.map (sparSet m) := by
    rw [ensure_list_ok_inv _ _ hout, sparSet_map_get]
  subst hli hlo
  dsimp only at h
  rcases hupd : update_node_mask node
      ((node.input.map (sparSet m)).map (fun s => some (.pyset s)))
      ((node.output.map (sparSet m)).map (fun s => some (.pyset s))) with e | p <;>
    rw [hupd] at h
  · simp at h
  · obtain ⟨new_in, new_out⟩ := p
    simp only [Except.ok.injEq, Prod.mk.injEq] at h
    exact ⟨new_in, new_out, rfl, h.1.symm⟩

/-- `merged_in` of pruning.py line 116 for a dot-product node. -/
def dotMergedIn (m : Model) (x w : String) : Mask :=
  decode_i (sparSet m w) ∪ sparSet m x

/-- `merged_out` of pruning.py line 117 for a dot-product node. -/
def dotMergedOut (m : Model) (w y : String) : Mask :=
  decode_o (sparSet m w) ∪ sparSet m y

/-- The depthwise-coupled merge of pruning.py lines 120-121. -/
def dotMerged (m : Model) (x w y : String) : Mask :=
  dotMergedIn m x w ∪ dotMergedOut m w y

theorem propagate_node_dot_inv (m : Model) (node : Node) (nm : Model) (r : Bool)
    (x w y : String)
    (hin : node.input = [x, w]) (hout : node.output = [y])
    (hop : node.op_type = "MatMul" ∨ node.op_type = "Conv")
    (hwx : w ≠ x) (hwy : w ≠ y)
    (h : propagate_node m node = .ok (nm, r)) :
    ∃ dw : Bool,
      (node.op_type = "Conv" → ∃ g, node.group = some g ∧ dw = decide (g > 1)) ∧
      (node.op_type = "MatMul" → dw = false) ∧
      ¬ hasIntElem (sparSet m w) ∧
      (dw = true →
        (∀ e ∈ dotMerged m x w y, e.isInt = true) ∧
        nm.sparsity y = some (.pyset (dotMerged m x w y)) ∧
        nm.sparsity x = some (.pyset (dotMerged m x w y)) ∧
        nm.sparsity w = some (.pyset (encMap_o (dotMerged m x w y)))) ∧
      (dw = false →
        (∀ e ∈ dotMergedIn m x w, e.isInt = true) ∧
        (∀ e ∈ dotMergedOut m w y, e.isInt = true) ∧
        nm.sparsity y = some (.pyset (dotMergedOut m w y)) ∧
        (x ≠ y → nm.sparsity x = some (.pyset (dotMergedIn m x w))) ∧
        nm.sparsity w =
          some (.pyset (encMap_i (dotMergedIn m x w) ∪ encMap_o (dotMergedOut m w y)))) := by
  obtain ⟨new_in, new_out, hupd, hnm⟩ := propagate_node_ok_inv m node nm r h
  rw [hin, hout] at hupd hnm
  unfold update_node_mask at hupd
  rw [ensure_list_map_pyset, ensure_list_map_pyset] at hupd
  dsimp only [List.map_cons, List.map_nil] at hupd hnm
  have hnb : ¬ (node.op_type ∈ eltwise_ops_bidirectional) := by
    rcases hop with h1 | h1 <;> rw [h1] <;> decide
  have hnw : ¬ (node.op_type ∈ eltwise_ops_bwdonly) := by
    rcases hop with h1 | h1 <;> rw [h1] <;> decide
  have hd : node.op_type ∈ ["MatMul", "Conv"] := by
    rcases hop with h1 | h1 <;> rw [h1] <;> decide
  rw [if_neg hnb, if_neg hnw, if_pos hd] at hupd
  by_cases hConv : node.op_type = "Conv"
  · rw [if_pos hConv] at hupd
    rcases hg : node.group with _ | g <;> rw [hg] at hupd
    · dsimp only at hupd
      exact absurd hupd (by simp)
    · dsimp only [List.get?] at hupd
      by_cases hint : hasIntElem (sparSet m w)
      · rw [if_pos hint] at hupd
        exact absurd hupd (by simp)
      rw [if_neg hint] at hupd
      by_cases hg1 : g > 1
      · -- depthwise leaf
        rw [decide_eq_true hg1, if_pos (rfl : (true : Bool) = true)] at hupd
        rcases heo : encode_o (decode_i (sparSet m w) ∪ sparSet m x ∪
            (decode_o (sparSet m w) ∪ sparSet m y)) with e | w2 <;> rw [heo] at hupd
        · exact absurd hupd (by simp)
        obtain ⟨hall, hw2⟩ := encode_o_ok_inv _ _ heo
        simp only [Except.ok.injEq, Prod.mk.injEq] at hupd
        obtain ⟨hni, hno⟩ := hupd
        rw [← hni, ← hno] at hnm
        dsimp only [List.zip_cons_cons, List.zip_nil_left, writeSpar, List.foldl_cons,
          List.foldl_nil] at hnm
        subst hnm
        refine ⟨true, fun _ => ⟨g, rfl, (decide_eq_true hg1).symm⟩,
          fun hM => absurd (hConv ▸ hM) (by decide), hint, fun _ => ⟨hall, ?_, ?_, ?_⟩,
          fun hh => absurd hh (by simp)⟩
        · rw [sparsity_set_spar, if_pos rfl]
          rfl
        · rw [sparsity_set_spar]
          by_cases hxy : x = y
          · rw [if_pos hxy]
            rfl
          · rw [if_neg hxy, sparsity_set_spar, if_neg (fun hh => hwx hh.symm),
              sparsity_set_spar, if_pos rfl]
            rfl
        · rw [sparsity_set_spar, if_neg hwy, sparsity_set_spar, if_pos rfl, hw2]
          rfl
      · -- dense Conv leaf
        rw [decide_eq_false hg1, if_neg (by decide : ¬ ((false : Bool) = true))] at hupd
        rcases hei : encode_i (decode_i (sparSet m w) ∪ sparSet m x) with e | wi <;>
          rw [hei] at hupd
        · exact absurd hupd (by simp)
        rcases heo : encode_o (decode_o (sparSet m w) ∪ sparSet m y) with e | wo <;>
          rw [heo] at hupd
        · exact absurd hupd (by simp)
        obtain ⟨halli, hwi⟩ := encode_i_ok_inv _ _ hei
        obtain ⟨hallo, hwo⟩ := encode_o_ok_inv _ _ heo
        simp only [Except.ok.injEq, Prod.mk.injEq] at hupd
        obtain ⟨hni, hno⟩ := hupd
        rw [← hni, ← hno] at hnm
        dsimp only [List.zip_cons_cons, List.zip_nil_left, writeSpar, List.foldl_cons,
          List.foldl_nil] at hnm
        subst hnm
        refine ⟨false, fun _ => ⟨g, rfl, (decide_eq_false hg1).symm⟩, fun _ => rfl, hint,
          fun hh => absurd hh (by simp), fun _ => ⟨halli, hallo, ?_, ?_, ?_⟩⟩
        · rw [sparsity_set_spar, if_pos rfl]
          rfl
        · intro hxy
          rw [sparsity_set_spar, if_neg hxy, sparsity_set_spar,
            if_neg (fun hh => hwx hh.symm), sparsity_set_spar, if_pos rfl]
          rfl
        · rw [sparsity_set_spar, if_neg hwy, sparsity_set_spar, if_pos rfl, hwi, hwo]
          rfl
  · -- MatMul leaf
    have hMM : node.op_type = "MatMul" := by
      rcases hop with h1 | h1
      · exact h1
      · exact absurd h1 hConv
    rw [if_neg hConv] at hupd
    dsimp only [List.get?] at hupd
    by_cases hint : hasIntElem (sparSet m w)
    · rw [if_pos hint] at hupd
      exact absurd hupd (by simp)
    rw [if_neg hint, if_neg (by decide : ¬ ((false : Bool) = true))] at hupd
    rcases hei : encode_i (decode_i (sparSet m w) ∪ sparSet m x) with e | wi <;>
      rw [hei] at hupd
    · exact absurd hupd (by simp)
    rcases heo : encode_o (decode_o (sparSet m w) ∪ sparSet m y) with e | wo <;>
      rw [heo] at hupd
    · exact absurd hupd (by simp)
    obtain ⟨halli, hwi⟩ := encode_i_ok_inv _ _ hei
    obtain ⟨hallo, hwo⟩ := encode_o_ok_inv _ _ heo
    simp only [Except.ok.injEq, Prod.mk.injEq] at hupd
    obtain ⟨hni, hno⟩ := hupd
    rw [← hni, ← hno] at hnm
    dsimp only [List.zip_cons_cons, List.zip_nil_left, writeSpar, List.foldl_cons,
      List.foldl_nil] at hnm
    subst hnm
    refine ⟨false, fun hC => absurd hC hConv, fun _ => rfl, hint,
      fun hh => absurd hh (by simp), fun _ => ⟨halli, hallo, ?_, ?_, ?_⟩⟩
    · rw [sparsity_set_spar, if_pos rfl]
      rfl
    · intro hxy
      rw [sparsity_set_spar, if_neg hxy, sparsity_set_spar,
        if_neg (fun hh => hwx hh.symm), sparsity_set_spar, if_pos rfl]
      rfl
    · rw [sparsity_set_spar, if_neg hwy, sparsity_set_spar, if_pos rfl, hwi, hwo]
      rfl

theorem propagate_node_bidir_inv (m : Model) (node : Node) (nm : Model) (r : Bool)
    (hop : node.op_type ∈ eltwise_ops_bidirectional)
    (h : propagate_node m node = .ok (nm, r)) :
    ∀ t ∈ node.input ++ node.output, nm.sparsity t = some (.pyset (bigU m node)) := by
  obtain ⟨new_in, new_out, hupd, hnm⟩ := propagate_node_ok_inv m node nm r h
  unfold update_node_mask at hupd
  rw [ensure_list_map_pyset, ensure_list_map_pyset] at hupd
  dsimp only at hupd
  rw [if_pos hop] at hupd
  simp only [Except.ok.injEq, Prod.mk.injEq] at hupd
  obtain ⟨hni, hno⟩ := hupd
  have hU : (node.input.map (sparSet m) ++ node.output.map (sparSet m)).foldl (· ∪ ·) ∅
      = bigU m node := by
    rw [bigU, List.map_append]
  rw [hU] at hni hno
  intro t ht
  subst hnm
  rcases List.mem_append.mp ht with htin | htout
  · -- t is an input
    by_cases hto : ∃ p ∈ node.output.zip new_out, p.1 = t
    · rw [writeSpar_sparsity _ _ t (bigU m node), if_pos hto]
      intro p hp hpt
      rw [← hno] at hp
      exact snd_of_mem_zip_const _ _ _ p hp
    · rw [writeSpar_sparsity _ _ t (bigU m node), if_neg hto,
        writeSpar_sparsity _ _ t (bigU m node), if_pos]
      · obtain ⟨p, hp, hpt⟩ := exists_zip_pair node.input new_in t htin
          (by rw [← hni, List.map_map, List.length_map])
        exact ⟨p, hp, hpt⟩
      · intro p hp hpt
        rw [← hni] at hp
        exact snd_of_mem_zip_const _ _ _ p hp
      · intro p hp hpt
        rw [← hno] at hp
        exact snd_of_mem_zip_const _ _ _ p hp
  · -- t is an output
    rw [writeSpar_sparsity _ _ t (bigU m node), if_pos]
    · obtain ⟨p, hp, hpt⟩ := exists_zip_pair node.output new_out t htout
        (by rw [← hno, List.map_map, List.length_map])
      exact ⟨p, hp, hpt⟩
    · intro p hp hpt
      rw [← hno] at hp
      exact snd_of_mem_zip_const _ _ _ p hp

theorem propagate_node_bwd_inv (m : Model) (node : Node) (nm : Model) (r : Bool)
    (hop : node.op_type ∈ eltwise_ops_bwdonly)
    (h : propagate_node m node = .ok (nm, r)) :
    (∀ t ∈ node.output, nm.sparsity t = some (.pyset (sparSet m t))) ∧
    (∀ t ∈ node.input, t ∉ node.output →
      nm.sparsity t = some (.pyset (bigU m node))) := by
  obtain ⟨new_in, new_out, hupd, hnm⟩ := propagate_node_ok_inv m node nm r h
  unfold update_node_mask at hupd
  have hops : node.op_type = "Add" ∨ node.op_type = "Sub" ∨
      node.op_type = "BatchNormalization" := by
    simpa [eltwise_ops_bwdonly] using hop
  have hnb : ¬ (node.op_type ∈ eltwise_ops_bidirectional) := by
    rcases hops with h1 | h1 | h1 <;> rw [h1] <;> decide
  rw [ensure_list_map_pyset, ensure_list_map_pyset] at hupd
  dsimp only at hupd
  rw [if_neg hnb, if_pos hop] at hupd
  simp only [Except.ok.injEq, Prod.mk.injEq] at hupd
  obtain ⟨hni, hno⟩ := hupd
  have hU : (node.input.map (sparSet m) ++ node.output.map (sparSet m)).foldl (· ∪ ·) ∅
      = bigU m node := by
    rw [bigU, List.map_append]
  rw [hU] at hni
  subst hnm
  constructor
  · intro t ht
    rw [writeSpar_sparsity _ _ t (sparSet m t), if_pos]
    · obtain ⟨p, hp, hpt⟩ := exists_zip_pair node.output new_out t ht
        (by rw [← hno, List.length_map])
      exact ⟨p, hp, hpt⟩
    · intro p hp hpt
      rw [← hno] at hp
      have := snd_of_mem_zip_map node.output (sparSet m) p hp
      rw [this, hpt]
  · intro t ht hto
    rw [writeSpar_sparsity_not_mem, writeSpar_sparsity _ _ t (bigU m node), if_pos]
    · obtain ⟨p, hp, hpt⟩ := exists_zip_pair node.input new_in t ht
        (by rw [← hni, List.map_map, List.length_map])
      exact ⟨p, hp, hpt⟩
    · intro p hp hpt
      rw [← hni] at hp
      exact snd_of_mem_zip_const _ _ _ p hp
    · intro p hp
      have := (List.of_mem_zip hp).1
      intro hpt
      rw [hpt] at this
      exact hto this

theorem propagate_node_unknown_inv (m : Model) (node : Node) (nm : Model) (r : Bool)
    (hop1 : ¬ (node.op_type ∈ eltwise_ops_bidirectional))
    (hop2 : ¬ (node.op_type ∈ eltwise_ops_bwdonly))
    (hop3 : ¬ (node.op_type ∈ ["MatMul", "Conv"]))
    (h : propagate_node m node = .ok (nm, r)) :
    ∀ t ∈ node.input ++ node.output, nm.sparsity t = some (.pyset (sparSet m t)) := by
  obtain ⟨new_in, new_out, hupd, hnm⟩ := propagate_node_ok_inv m node nm r h
  unfold update_node_mask at hupd
  rw [ensure_list_map_pyset, ensure_list_map_pyset] at hupd
  dsimp only at hupd
  rw [if_neg hop1, if_neg hop2, if_neg hop3] at hupd
  simp only [Except.ok.injEq, Prod.mk.injEq] at hupd
  obtain ⟨hni, hno⟩ := hupd
  subst hnm
  intro t ht
  rcases List.mem_append.mp ht with htin | htout
  · by_cases htoz : ∃ p ∈ node.output.zip new_out, p.1 = t
    · rw [writeSpar_sparsity _ _ t (sparSet m t), if_pos htoz]
      intro p hp hpt
      rw [← hno] at hp
      have := snd_of_mem_zip_map node.output (sparSet m) p hp
      rw [this, hpt]
    · rw [writeSpar_sparsity _ _ t (sparSet m t), if_neg htoz,
        writeSpar_sparsity _ _ t (sparSet m t), if_pos]
      · obtain ⟨p, hp, hpt⟩ := exists_zip_pair node.input new_in t htin
          (by rw [← hni, List.length_map])
        exact ⟨p, hp, hpt⟩
      · intro p hp hpt
        rw [← hni] at hp
        have := snd_of_mem_zip_map node.input (sparSet m) p hp
        rw [this, hpt]
      · intro p hp hpt
        rw [← hno] at hp
        have := snd_of_mem_zip_map node.output (sparSet m) p hp
        rw [this, hpt]
  · rw [writeSpar_sparsity _ _ t (sparSet m t), if_pos]
    · obtain ⟨p, hp, hpt⟩ := exists_zip_pair node.output new_out t htout
        (by rw [← hno, List.length_map])
      exact ⟨p, hp, hpt⟩
    · intro p hp hpt
      rw [← hno] at hp
      have := snd_of_mem_zip_map node.output (sparSet m) p hp
      rw [this, hpt]

theorem sparSet_eq_of (nm : Model) (t : String) (v : Mask)
    (h : nm.sparsity t = some (.pyset v)) : sparSet nm t = v := by
  unfold sparSet
  rw [h]
  rfl

theorem mem_decode_i_elim (s : Mask) (x : MElem) (h : x ∈ decode_i s) :
    ∃ k, x = MElem.n k ∧ MElem.i k ∈ s := by
  rcases Finset.mem_image.mp h with ⟨e, he, hex⟩
  rcases Finset.mem_filter.mp he with ⟨hes, hP⟩
  match e with
  | .i j => exact ⟨j, hex.symm, hes⟩
  | .n j | .o j | .other u => simp [MElem.isIPref] at hP

theorem mem_decode_o_elim (s : Mask) (x : MElem) (h : x ∈ decode_o s) :
    ∃ k, x = MElem.n k ∧ MElem.o k ∈ s := by
  rcases Finset.mem_image.mp h with ⟨e, he, hex⟩
  rcases Finset.mem_filter.mp he with ⟨hes, hP⟩
  match e with
  | .o j => exact ⟨j, hex.symm, hes⟩
  | .n j | .i j | .other u => simp [MElem.isOPref] at hP

/-- C1 (amended): a propagation step only grows the masks of the processed
node's tensors, except for the weight operand of a dot-product node, whose
mask is re-encoded: it grows provided every element is an `iX`/`oX` entry
and the node is not a depthwise convolution (otherwise non-prefixed
elements are dropped and, for depthwise, `iX` entries are folded into the
output side). -/
theorem claim_C1_propagation_monotone_amended (m : Model) (node : Node) (nm : Model)
    (r : Bool) (h : propagate_node m node = .ok (nm, r)) :
    (node.op_type ∉ ["MatMul", "Conv"] →
      ∀ t ∈ node.input ++ node.output, sparSet m t ⊆ sparSet nm t) ∧
    (∀ x w y, node.input = [x, w] → node.output = [y] → w ≠ x → w ≠ y →
      sparSet m x ⊆ sparSet nm x ∧ sparSet m y ⊆ sparSet nm y ∧
      ((∀ e ∈ sparSet m w, e.isIPref = true ∨ e.isOPref = true) →
        (node.op_type = "Conv" → ∀ g, node.group = some g → ¬ g > 1) →
        sparSet m w ⊆ sparSet nm w)) := by
  have part1 : node.op_type ∉ ["MatMul", "Conv"] →
      ∀ t ∈ node.input ++ node.output, sparSet m t ⊆ sparSet nm t := by
    intro hnd t ht
    by_cases hb : node.op_type ∈ eltwise_ops_bidirectional
    · rw [sparSet_eq_of nm t _ (propagate_node_bidir_inv m node nm r hb h t ht)]
      exact subset_foldl_union _ ∅ _ (List.mem_map_of_mem (sparSet m) ht)
    by_cases hw : node.op_type ∈ eltwise_ops_bwdonly
    · obtain ⟨hout, hin⟩ := propagate_node_bwd_inv m node nm r hw h
      rcases List.mem_append.mp ht with hti | hto
      · by_cases hto2 : t ∈ node.output
        · rw [sparSet_eq_of nm t _ (hout t hto2)]
        · rw [sparSet_eq_of nm t _ (hin t hti hto2)]
          exact subset_foldl_union _ ∅ _ (List.mem_map_of_mem (sparSet m) ht)
      · rw [sparSet_eq_of nm t _ (hout t hto)]
    · rw [sparSet_eq_of nm t _ (propagate_node_unknown_inv m node nm r hb hw hnd h t ht)]
  refine ⟨part1, ?_⟩
  intro x w y hin hout hwx hwy
  by_cases hdot : node.op_type ∈ ["MatMul", "Conv"]
  · have hop : node.op_type = "MatMul" ∨ node.op_type = "Conv" := by
      simpa using hdot
    obtain ⟨dw, hC, hMM, hint, hdt, hdf⟩ :=
      propagate_node_dot_inv m node nm r x w y hin hout hop hwx hwy h
    rcases hdw : dw with _ | _
    · -- dense: input gets merged_in, output merged_out
      obtain ⟨halli, hallo, hy, hx, hwv⟩ := hdf hdw
      refine ⟨?_, ?_, ?_⟩
      · by_cases hxy : x = y
        · rw [sparSet_eq_of nm x _ (hxy ▸ hy), hxy]
          exact fun e he => Finset.mem_union_right _ he
        · rw [sparSet_eq_of nm x _ (hx hxy)]
          exact fun e he => Finset.mem_union_right _ he
      · rw [sparSet_eq_of nm y _ hy]
        exact fun e he => Finset.mem_union_right _ he
      · intro hpref _
        rw [sparSet_eq_of nm w _ hwv]
        intro e he
        rcases hpref e he with hp | hp
        · match e, hp with
          | .i k, _ =>
            refine Finset.mem_union_left _ (mem_encMap_i_of _ k ?_)
            exact Finset.mem_union_left _ ((mem_decode_i _ k).mpr he)
        · match e, hp with
          | .o k, _ =>
            refine Finset.mem_union_right _ (mem_encMap_o_of _ k ?_)
            exact Finset.mem_union_left _ ((mem_decode_o _ k).mpr he)
    · -- depthwise: everything merges
      obtain ⟨hall, hy, hx, hwv⟩ := hdt hdw
      refine ⟨?_, ?_, ?_⟩
      · rw [sparSet_eq_of nm x _ hx]
        exact fun e he => Finset.mem_union_left _ (Finset.mem_union_right _ he)
      · rw [sparSet_eq_of nm y _ hy]
        exact fun e he => Finset.mem_union_right _ (Finset.mem_union_right _ he)
      · intro hpref hnodw
        exfalso
        rcases hop with h1 | h1
        · rw [hMM h1] at hdw
          cases hdw
        · obtain ⟨g, hg, hdw2⟩ := hC h1
          rw [hdw] at hdw2
          exact hnodw h1 g hg (of_decide_eq_true hdw2.symm)
  · have hx : x ∈ node.input ++ node.output := by rw [hin]; simp
    have hy : y ∈ node.input ++ node.output := by rw [hout]; simp
    have hw : w ∈ node.input ++ node.output := by rw [hin]; simp
    exact ⟨part1 hdot x hx, part1 hdot y hy, fun _ _ => part1 hdot w hw⟩

/-- Counterexample model for C1: a MatMul whose weight mask holds the
string `"z3"` (no `i`/`o` prefix). -/
def cexC1_model : Model :=
  ⟨[⟨"mm", "MatMul", ["x", "w"], ["y"], none⟩],
   fun t => if t = "w" then some (.pyset {MElem.other "z3"}) else none,
   fun t => if t = "w" then some ⟨[2, 2], [1, 2, 3, 4]⟩ else none,
   fun _ => []⟩

/-- Second counterexample model for C1: a depthwise Conv (group 2) whose
weight mask holds the input-side entry `"i0"`. -/
def cexC1_model2 : Model :=
  ⟨[⟨"cv", "Conv", ["x", "w"], ["y"], some 2⟩],
   fun t => if t = "w" then some (.pyset {MElem.i 0}) else none,
   fun _ => none,
   fun _ => []⟩

/-- C1 (counterexample): the claim as stated is false — one propagation
sweep over `cexC1_model` rewrites the weight mask from the set containing
the string `"z3"` to the empty set, which is not a superset of what was
read at the start of the step; and over `cexC1_model2` a depthwise Conv's
weight mask is re-encoded from the set containing `"i0"` to the set
containing `"o0"`, again not a superset. -/
theorem claim_C1_cex :
    (cexC1_model.sparsity "w" = some (.pyset {MElem.other "z3"}) ∧
     exSpar "w" (propagateMasksApply cexC1_model) = some (some (.pyset ∅)) ∧
     ¬ ({MElem.other "z3"} : Mask) ⊆ (∅ : Mask)) ∧
    (cexC1_model2.sparsity "w" = some (.pyset {MElem.i 0}) ∧
     exSpar "w" (propagateMasksApply cexC1_model2) = some (some (.pyset {MElem.o 0})) ∧
     ¬ ({MElem.i 0} : Mask) ⊆ ({MElem.o 0} : Mask)) := by
  refine ⟨⟨by decide, by decide, by decide⟩, ⟨by decide, by decide, by decide⟩⟩

/-- Witness node/model for C1: a dense MatMul with prefixed weight mask. -/
def witC1_node : Node := ⟨"mm", "MatMul", ["x1", "w1"], ["y1"], none⟩

def witC1_model : Model :=
  ⟨[witC1_node],
   fun t => if t = "x1" then some (.pyset {MElem.n 0}) else
            if t = "w1" then some (.pyset {MElem.i 1, MElem.o 2}) else none,
   fun t => if t = "w1" then some ⟨[2, 2], [1, 2, 3, 4]⟩ else none,
   fun _ => []⟩

theorem claim_C1_witness :
    ∃ nm r, propagate_node witC1_model witC1_node = .ok (nm, r) ∧
      ((witC1_node.op_type ∉ ["MatMul", "Conv"] →
        ∀ t ∈ witC1_node.input ++ witC1_node.output,
          sparSet witC1_model t ⊆ sparSet nm t) ∧
       (∀ x w y, witC1_node.input = [x, w] → witC1_node.output = [y] →
        w ≠ x → w ≠ y →
        sparSet witC1_model x ⊆ sparSet nm x ∧
        sparSet witC1_model y ⊆ sparSet nm y ∧
        ((∀ e ∈ sparSet witC1_model w, e.isIPref = true ∨ e.isOPref = true) →
          (witC1_node.op_type = "Conv" → ∀ g, witC1_node.group = some g → ¬ g > 1) →
          sparSet witC1_model w ⊆ sparSet nm w))) := by
  rcases hE : propagate_node witC1_model witC1_node with e | ⟨nm, r⟩
  · have hne : exErr (propagate_node witC1_model witC1_node) = none := by decide
    rw [hE] at hne
    exact absurd hne (by simp [exErr])
  · exact ⟨nm, r, rfl, claim_C1_propagation_monotone_amended witC1_model witC1_node nm r hE⟩

/-- C3: for a depthwise Conv (group > 1), after one propagation step the
data-input mask, the output mask and the output-side decoding of the weight
mask coincide, and the weight mask's input-side decoding is empty. -/
theorem claim_C3_depthwise_coupling (m : Model) (node : Node) (nm : Model) (r : Bool)
    (x w y : String) (g : Nat)
    (hop : node.op_type = "Conv") (hg : node.group = some g) (hg1 : g > 1)
    (hin : node.input = [x, w]) (hout : node.output = [y])
    (hwx : w ≠ x) (hwy : w ≠ y)
    (h : propagate_node m node = .ok (nm, r)) :
    ∃ M : Mask,
      nm.sparsity x = some (.pyset M) ∧
      nm.sparsity y = some (.pyset M) ∧
      nm.sparsity w = some (.pyset (encMap_o M)) ∧
      decode_o (encMap_o M) = M ∧
      decode_i (encMap_o M) = ∅ := by
  obtain ⟨dw, hC, _, _, hdt, _⟩ :=
    propagate_node_dot_inv m node nm r x w y hin hout (Or.inr hop) hwx hwy h
  obtain ⟨g', hg', hdw⟩ := hC hop
  rw [hg] at hg'
  injection hg' with hg'
  subst hg'
  have hdwt : dw = true := by rw [hdw]; exact decide_eq_true hg1
  obtain ⟨hall, hy, hx, hw⟩ := hdt hdwt
  exact ⟨dotMerged m x w y, hx, hy, hw,
    decode_o_encMap_o _ hall, decode_i_encMap_o _ hall⟩

/-- Witness model for C3: a depthwise Conv (group 2). -/
def witC3_node : Node := ⟨"cv", "Conv", ["x3", "w3"], ["y3"], some 2⟩

def witC3_model : Model :=
  ⟨[witC3_node],
   fun t => if t = "x3" then some (.pyset {MElem.n 0}) else
            if t = "w3" then some (.pyset {MElem.o 1}) else none,
   fun _ => none, fun _ => []⟩

theorem claim_C3_witness :
    witC3_node.op_type = "Conv" ∧ witC3_node.group = some 2 ∧
    ∃ nm r, propagate_node witC3_model witC3_node = .ok (nm, r) ∧
      ∃ M : Mask,
        nm.sparsity "x3" = some (.pyset M) ∧
        nm.sparsity "y3" = some (.pyset M) ∧
        nm.sparsity "w3" = some (.pyset (encMap_o M)) ∧
        decode_o (encMap_o M) = M ∧
        decode_i (encMap_o M) = ∅ := by
  refine ⟨rfl, rfl, ?_⟩
  rcases hE : propagate_node witC3_model witC3_node with e | ⟨nm, r⟩
  · have hne : exErr (propagate_node witC3_model witC3_node) = none := by decide
    rw [hE] at hne
    exact absurd hne (by simp [exErr])
  · exact ⟨nm, r, rfl, claim_C3_depthwise_coupling witC3_model witC3_node nm r
      "x3" "w3" "y3" 2 rfl rfl (by decide) rfl rfl (by decide) (by decide) hE⟩

/-- C4: for a dense (non-depthwise) MatMul/Conv, one propagation step sets
the data-input mask to `merged_in`, the output mask to `merged_out`, keeps
them decoupled, and writes the weight mask as exactly the `i`-encoding of
`merged_in` unioned with the `o`-encoding of `merged_out`. -/
theorem claim_C4_dotprod_decoupling (m : Model) (node : Node) (nm : Model) (r : Bool)
    (x w y : String)
    (hop : node.op_type = "MatMul" ∨ node.op_type = "Conv")
    (hdense : node.op_type = "Conv" → ∃ g, node.group = some g ∧ ¬ g > 1)
    (hin : node.input = [x, w]) (hout : node.output = [y])
    (hwx : w ≠ x) (hwy : w ≠ y) (hxy : x ≠ y)
    (h : propagate_node m node = .ok (nm, r)) :
    nm.sparsity x = some (.pyset (dotMergedIn m x w)) ∧
    nm.sparsity y = some (.pyset (dotMergedOut m w y)) ∧
    nm.sparsity w = some (.pyset (encMap_i (dotMergedIn m x w) ∪
      encMap_o (dotMergedOut m w y))) ∧
    (∀ k : Nat, MElem.n k ∉ sparSet m x → MElem.i k ∉ sparSet m w →
      MElem.n k ∉ dotMergedIn m x w) ∧
    (∀ k : Nat, MElem.n k ∉ sparSet m y → MElem.o k ∉ sparSet m w →
      MElem.n k ∉ dotMergedOut m w y) := by
  obtain ⟨dw, hC, hMM, _, _, hdf⟩ :=
    propagate_node_dot_inv m node nm r x w y hin hout hop hwx hwy h
  have hdwf : dw = false := by
    rcases hop with h1 | h1
    · exact hMM h1
    · obtain ⟨g, hg, hng⟩ := hdense h1
      obtain ⟨g', hg', hdw⟩ := hC h1
      rw [hg] at hg'
      injection hg' with hg'
      subst hg'
      rw [hdw]
      exact decide_eq_false hng
  obtain ⟨_, _, hy, hx, hw⟩ := hdf hdwf
  refine ⟨hx hxy, hy, hw, ?_, ?_⟩
  · intro k hkx hkw hmem
    rcases Finset.mem_union.mp hmem with hk | hk
    · exact hkw ((mem_decode_i _ k).mp hk)
    · exact hkx hk
  · intro k hky hkw hmem
    rcases Finset.mem_union.mp hmem with hk | hk
    · exact hkw ((mem_decode_o _ k).mp hk)
    · exact hky hk

/-- Witness model for C4: a MatMul whose output tensor carries a mask that
must not leak into the input side. -/
def witC4_node : Node := ⟨"mm", "MatMul", ["x4", "w4"], ["y4"], none⟩

def witC4_model : Model :=
  ⟨[witC4_node],
   fun t => if t = "x4" then some (.pyset {MElem.n 0}) else
            if t = "y4" then some (.pyset {MElem.n 5}) else
            if t = "w4" then some (.pyset {MElem.i 1, MElem.o 2}) else none,
   fun t => if t = "w4" then some ⟨[2, 2], [1, 2, 3, 4]⟩ else none,
   fun _ => []⟩

theorem claim_C4_witness :
    MElem.n 5 ∉ dotMergedIn witC4_model "x4" "w4" ∧
    ∃ nm r, propagate_node witC4_model witC4_node = .ok (nm, r) ∧
      (nm.sparsity "x4" = some (.pyset (dotMergedIn witC4_model "x4" "w4")) ∧
       nm.sparsity "y4" = some (.pyset (dotMergedOut witC4_model "w4" "y4")) ∧
       nm.sparsity "w4" = some (.pyset (encMap_i (dotMergedIn witC4_model "x4" "w4") ∪
         encMap_o (dotMergedOut witC4_model "w4" "y4"))) ∧
       (∀ k : Nat, MElem.n k ∉ sparSet witC4_model "x4" →
         MElem.i k ∉ sparSet witC4_model "w4" →
         MElem.n k ∉ dotMergedIn witC4_model "x4" "w4") ∧
       (∀ k : Nat, MElem.n k ∉ sparSet witC4_model "y4" →
         MElem.o k ∉ sparSet witC4_model "w4" →
         MElem.n k ∉ dotMergedOut witC4_model "w4" "y4")) := by
  refine ⟨by decide, ?_⟩
  rcases hE : propagate_node witC4_model witC4_node with e | ⟨nm, r⟩
  · have hne : exErr (propagate_node witC4_model witC4_node) = none := by decide
    rw [hE] at hne
    exact absurd hne (by simp [exErr])
  · exact ⟨nm, r, rfl, claim_C4_dotprod_decoupling witC4_model witC4_node nm r
      "x4" "w4" "y4" (Or.inl rfl) (fun hh => absurd hh (by decide)) rfl rfl
      (by decide) (by decide) (by decide) hE⟩

/-- C7: a bidirectional elementwise node's step writes the union U of all
input and output masks to every input and output, so afterwards all its
masks are pairwise equal. -/
theorem claim_C7_bidirectional_union (m : Model) (node : Node) (nm : Model) (r : Bool)
    (hop : node.op_type ∈ eltwise_ops_bidirectional)
    (h : propagate_node m node = .ok (nm, r)) :
    (∀ t ∈ node.input ++ node.output, nm.sparsity t = some (.pyset (bigU m node))) ∧
    (∀ t1 ∈ node.input ++ node.output, ∀ t2 ∈ node.input ++ node.output,
      nm.sparsity t1 = nm.sparsity t2) := by
  have hmain := propagate_node_bidir_inv m node nm r hop h
  exact ⟨hmain, fun t1 h1 t2 h2 => by rw [hmain t1 h1, hmain t2 h2]⟩

def witC7_node : Node := ⟨"ml", "Mul", ["a7", "b7"], ["c7"], none⟩

def witC7_model : Model :=
  ⟨[witC7_node],
   fun t => if t = "a7" then some (.pyset {MElem.n 1}) else
            if t = "c7" then some (.pyset {MElem.n 2}) else none,
   fun _ => none, fun _ => []⟩

theorem claim_C7_witness :
    witC7_node.op_type ∈ eltwise_ops_bidirectional ∧
    ∃ nm r, propagate_node witC7_model witC7_node = .ok (nm, r) ∧
      ((∀ t ∈ witC7_node.input ++ witC7_node.output,
         nm.sparsity t = some (.pyset (bigU witC7_model witC7_node))) ∧
       (∀ t1 ∈ witC7_node.input ++ witC7_node.output,
        ∀ t2 ∈ witC7_node.input ++ witC7_node.output,
         nm.sparsity t1 = nm.sparsity t2)) := by
  refine ⟨by decide, ?_⟩
  rcases hE : propagate_node witC7_model witC7_node with e | ⟨nm, r⟩
  · have hne : exErr (propagate_node witC7_model witC7_node) = none := by decide
    rw [hE] at hne
    exact absurd hne (by simp [exErr])
  · exact ⟨nm, r, rfl,
      claim_C7_bidirectional_union witC7_model witC7_node nm r (by decide) hE⟩

/-- C8: a backward-only elementwise node's step writes the union U of all
input and output masks to every input and stores each output's mask as the
set that was read for it at the start of the step (absent read as empty). -/
theorem claim_C8_backward_only (m : Model) (node : Node) (nm : Model) (r : Bool)
    (hop : node.op_type ∈ eltwise_ops_bwdonly)
    (hdisj : ∀ t ∈ node.input, t ∉ node.output)
    (h : propagate_node m node = .ok (nm, r)) :
    (∀ t ∈ node.input, nm.sparsity t = some (.pyset (bigU m node))) ∧
    (∀ t ∈ node.output, nm.sparsity t = some (.pyset (sparSet m t))) := by
  obtain ⟨hout, hin⟩ := propagate_node_bwd_inv m node nm r hop h
  exact ⟨fun t ht => hin t ht (hdisj t ht), hout⟩

def witC8_node : Node := ⟨"ad", "Add", ["a8", "b8"], ["c8"], none⟩

def witC8_model : Model :=
  ⟨[witC8_node],
   fun t => if t = "a8" then some (.pyset {MElem.n 1}) else
            if t = "c8" then some (.pyset {MElem.n 2}) else none,
   fun _ => none, fun _ => []⟩

theorem claim_C8_witness :
    witC8_node.op_type ∈ eltwise_ops_bwdonly ∧
    (∀ t ∈ witC8_node.input, t ∉ witC8_node.output) ∧
    ∃ nm r, propagate_node witC8_model witC8_node = .ok (nm, r) ∧
      ((∀ t ∈ witC8_node.input,
         nm.sparsity t = some (.pyset (bigU witC8_model witC8_node))) ∧
       (∀ t ∈ witC8_node.output,
         nm.sparsity t = some (.pyset (sparSet witC8_model t)))) := by
  refine ⟨by decide, by decide, ?_⟩
  rcases hE : propagate_node witC8_model witC8_node with e | ⟨nm, r⟩
  · have hne : exErr (propagate_node witC8_model witC8_node) = none := by decide
    rw [hE] at hne
    exact absurd hne (by simp [exErr])
  · exact ⟨nm, r, rfl, claim_C8_backward_only witC8_model witC8_node nm r
      (by decide) (by decide) hE⟩

/-! ### Removal-side lemmas -/

theorem remove_tensor_skip (m : Model) (i : Nat) (io : String) (nr : Bool)
    (h : m.sparsity io = none ∨ m.sparsity io = some .emptyDict) :
    remove_tensor m i io nr = .ok (m, nr) := by
  unfold remove_tensor
  rcases hn : m.nodes.get? i with _ | node
  · rfl
  · simp only [Model.get_tensor_sparsity]
    rcases h with h | h <;> rw [h]

theorem rmtc_scalar (t : Tensor) (mask : Mask) (axis : Nat)
    (h : t.ndim = 0 ∨ t.shape.prod = 1) :
    remove_masked_tensor_channels t mask axis = .ok t := by
  unfold remove_masked_tensor_channels
  rw [if_pos h]

theorem npDelete_ok (t : Tensor) (idxs : Mask) (axis : Nat)
    (hax : axis < t.shape.length)
    (hint : ∀ x ∈ idxs, x.isInt = true)
    (hrange : ∀ x ∈ idxs, x.idx < t.shape.get ⟨axis, hax⟩) :
    ∃ u : Tensor, npDelete t idxs axis = .ok u ∧
      u.shape.length = t.shape.length ∧
      (∀ j, j ≠ axis → u.shape.get? j = t.shape.get? j) := by
  unfold npDelete
  rw [if_neg (not_not_intro hint), dif_pos hax, if_neg (not_not_intro hrange)]
  refine ⟨_, rfl, ?_, ?_⟩
  · exact List.length_set t.shape axis _
  · intro j hj
    exact List.get?_set_ne _ _ (fun hh => hj hh.symm)

theorem rmtc_ok (t : Tensor) (mask : Mask) (axis : Nat)
    (hax : axis < t.shape.length)
    (hint : ∀ x ∈ mask, x.isInt = true)
    (hrange : ∀ x ∈ mask, x.idx < t.shape.get ⟨axis, hax⟩) :
    ∃ u : Tensor, remove_masked_tensor_channels t mask axis = .ok u ∧
      u.shape.length = t.shape.length ∧
      (∀ j, j ≠ axis → u.shape.get? j = t.shape.get? j) := by
  unfold remove_masked_tensor_channels
  by_cases hscal : t.ndim = 0 ∨ t.shape.prod = 1
  · exact ⟨t, by rw [if_pos hscal], rfl, fun _ _ => rfl⟩
  · rw [if_neg hscal]
    exact npDelete_ok t mask axis hax hint hrange

/-- Counterexample model for C9: one tensor with an *empty-set* mask
(distinct from the cleared empty-dict sentinel). -/
def cexC9_model : Model :=
  ⟨[⟨"u", "Foo", ["x9"], [], none⟩],
   fun t => if t = "x9" then some (.pyset ∅) else none,
   fun _ => none,
   fun t => if t = "x9" then [1, 4] else []⟩

/-- C9 (counterexample): the claim as stated is false.  In `cexC9_model`
every mask is absent or empty, yet Removal reports "changed" (the guard
`mask == \x7b\x7d` compares a set against the empty dict and fails on the
empty set), and the stored mask value changes from the empty set to the
cleared dict sentinel. -/
theorem claim_C9_cex :
    cexC9_model.sparsity "x9" = some (.pyset ∅) ∧
    exFlag (removeMaskedChannelsApply cexC9_model) = some true ∧
    exSpar "x9" (removeMaskedChannelsApply cexC9_model) = some (some .emptyDict) := by
  refine ⟨by decide, by decide, by decide⟩

/-- C9 (amended): Removal on a model in which every tensor's mask is absent
or the cleared empty-dict sentinel changes nothing — it returns the model
unchanged with a `False` changed flag.  (A tensor carrying an *empty set*
mask, by contrast, is still processed and flips the flag, see the
counterexample.) -/
theorem claim_C9_removal_noop_amended (m : Model)
    (h : ∀ t, m.sparsity t = none ∨ m.sparsity t = some .emptyDict) :
    removeMaskedChannelsApply m = .ok (m, false) := by
  have Hin : ∀ (i : Nat) (ios : List String) (b : Bool),
      ios.foldlM (fun acc2 ioname => remove_tensor acc2.1 i ioname acc2.2)
        ((m, b) : Model × Bool) = .ok (m, b) := by
    intro i ios b
    induction ios with
    | nil => rfl
    | cons io rest ih =>
      rw [List.foldlM_cons, remove_tensor_skip m i io b (h io)]
      exact ih
  have H : ∀ (l : List Nat) (b : Bool),
      l.foldlM (fun (acc : Model × Bool) i =>
        (match acc.1.nodes.get? i with
         | none => Except.ok acc
         | some node => (node.input ++ node.output).foldlM
             (fun acc2 ioname => remove_tensor acc2.1 i ioname acc2.2) acc :
         Except String (Model × Bool)))
        ((m, b) : Model × Bool) = .ok (m, b) := by
    intro l b
    induction l with
    | nil => rfl
    | cons i rest ih =>
      rw [List.foldlM_cons]
      have hstep : (match (m, b).1.nodes.get? i with
          | none => Except.ok (m, b)
          | some node => (node.input ++ node.output).foldlM
              (fun acc2 ioname => remove_tensor acc2.1 i ioname acc2.2) (m, b) :
          Except String (Model × Bool)) = .ok (m, b) := by
        rcases hn : m.nodes.get? i with _ | node
        · rfl
        · exact Hin i (node.input ++ node.output) b
      rw [hstep]
      exact ih
  exact H _ false

/-- Witness model for C9 (amended): a node whose tensors carry no masks. -/
def witC9_model : Model :=
  ⟨[⟨"u", "Foo", ["xw"], ["yw"], none⟩],
   fun _ => none,
   fun _ => none,
   fun _ => [1, 4]⟩

theorem claim_C9_witness :
    (∀ t, witC9_model.sparsity t = none ∨ witC9_model.sparsity t = some .emptyDict) ∧
    removeMaskedChannelsApply witC9_model = .ok (witC9_model, false) :=
  ⟨fun _ => Or.inl rfl,
   claim_C9_removal_noop_amended witC9_model (fun _ => Or.inl rfl)⟩

/-- Counterexample model for C10: a MatMul node whose 1-element data input
carries the plain integer mask containing 0. -/
def cexC10_model : Model :=
  ⟨[⟨"mm", "MatMul", ["xa", "wa"], ["ya"], none⟩],
   fun t => if t = "xa" then some (.pyset {MElem.n 0}) else none,
   fun t => if t = "xa" then some ⟨[1], [7]⟩ else
            if t = "wa" then some ⟨[1, 1], [1]⟩ else none,
   fun t => if t = "xa" then [1] else if t = "wa" then [1, 1] else []⟩

/-- Second counterexample model for C10: a Conv node whose single-element
rank-1 tensor carries the decodable prefixed mask containing `"o0"`. -/
def cexC10_model2 : Model :=
  ⟨[⟨"cv", "Conv", ["xc2", "wc2"], ["yc2"], some 1⟩],
   fun t => if t = "wc2" then some (.pyset {MElem.o 0}) else none,
   fun t => if t = "wc2" then some ⟨[1], [3]⟩ else none,
   fun t => if t = "wc2" then [1] else []⟩

/-- C10 (counterexample): the claim as stated is false.  The tensor `xa`
has a single-element initializer and a non-empty mask, but Removal raises
`AttributeError` (the MatMul branch string-decodes every mask of the node's
tensors, and the plain integer `0` has no `startswith`), so the tensor is
neither returned unchanged nor is its mask cleared.  Likewise the tensor
`wc2` — single-element, rank 1, with a perfectly decodable prefixed mask —
makes the Conv branch raise `IndexError` at `io_shp[1]` before the scalar
exemption can apply. -/
theorem claim_C10_cex :
    (cexC10_model.inits "xa" = some ⟨[1], [7]⟩ ∧
     cexC10_model.sparsity "xa" = some (.pyset {MElem.n 0}) ∧
     exErr (removeMaskedChannelsApply cexC10_model) = some "AttributeError") ∧
    (cexC10_model2.inits "wc2" = some ⟨[1], [3]⟩ ∧
     cexC10_model2.sparsity "wc2" = some (.pyset {MElem.o 0}) ∧
     exErr (removeMaskedChannelsApply cexC10_model2) = some "IndexError") := by
  refine ⟨⟨by decide, by decide, by decide⟩, ⟨by decide, by decide, by decide⟩⟩

/-- C10 (amended): a rank-0 or single-element initializer with a non-empty
mask is left unchanged in content and shape by Removal, its mask is cleared
to the empty-dict sentinel, and the sweep is marked changed — provided the
owning node's removal branch completes without raising: for nodes outside
the MatMul/Conv branches this holds regardless of mask contents; for a
tensor of a MatMul node it holds whenever every mask element is a prefixed
string; for a tensor of a Conv node it holds whenever additionally the
tensor's rank is at least 2 and the node carries a group attribute (a
single-element rank-≥2 shape has second dimension 1, so the group assert
passes for any group count). -/
theorem claim_C10_scalar_exemption_amended (m : Model) (i : Nat) (io : String)
    (nr : Bool) (node : Node) (t : Tensor) (s : Mask)
    (hn : m.nodes.get? i = some node)
    (hinit : m.inits io = some t)
    (hshp : m.shapes io = t.shape)
    (hscal : t.ndim = 0 ∨ t.shape.prod = 1)
    (hmask : m.sparsity io = some (.pyset s))
    (hne : s ≠ ∅)
    (hbranch : node.op_type ∉ ["MatMul", "Conv"] ∨
      (node.op_type = "MatMul" ∧ ¬ hasIntElem s) ∨
      (node.op_type = "Conv" ∧ ¬ hasIntElem s ∧ 2 ≤ t.shape.length ∧
        ∃ g, node.group = some g)) :
    ∃ m', remove_tensor m i io nr = .ok (m', true) ∧
      m'.inits io = m.inits io ∧
      m'.shapes io = m.shapes io ∧
      m'.sparsity io = some .emptyDict := by
  unfold remove_tensor
  rw [hn]
  simp only [Model.get_tensor_sparsity, Model.get_initializer, Model.get_tensor_shape]
  rw [hmask, hinit]
  dsimp only
  rcases hbranch with hb | ⟨hb, hbint⟩ | ⟨hb, hbint, hrank, g, hg⟩
  · -- generic branch
    have hb1 : ¬ (node.op_type ∈ ["MatMul"]) := by
      intro hh
      exact hb (by simpa using Or.inl (by simpa using hh))
    have hb2 : ¬ (node.op_type ∈ ["Conv"]) := by
      intro hh
      exact hb (by simpa using Or.inr (by simpa using hh))
    rw [if_neg hb1, if_neg hb2, rmtc_scalar t s _ hscal]
    refine ⟨_, rfl, ?_, ?_, ?_⟩
    · simp [Model.set_initializer, Model.set_tensor_sparsity, hinit]
    · simp [Model.set_initializer, Model.set_tensor_sparsity, hshp]
    · rw [sparsity_set_spar, if_pos rfl]
  · -- MatMul branch with a decodable mask
    rw [if_pos (by rw [hb]; decide), if_neg hbint, rmtc_scalar t (decode_i s) 0 hscal]
    dsimp only
    rw [rmtc_scalar t (decode_o s) 1 hscal]
    dsimp only
    refine ⟨_, rfl, ?_, ?_, ?_⟩
    · simp [Model.set_initializer, Model.set_tensor_sparsity, hinit]
    · simp [Model.set_initializer, Model.set_tensor_sparsity, hshp]
    · rw [sparsity_set_spar, if_pos rfl]
  · -- Conv branch: decodable mask, rank at least 2, group attribute present
    have h1lt : 1 < t.shape.length := lt_of_lt_of_le one_lt_two hrank
    have h0lt : 0 < t.shape.length := lt_trans zero_lt_one h1lt
    have hprod : t.shape.prod = 1 := by
      rcases hscal with h | h
      · exfalso
        rw [Tensor.ndim] at h
        omega
      · exact h
    have hifm1 : t.shape.get ⟨1, h1lt⟩ = 1 := by
      have hmem : t.shape.get ⟨1, h1lt⟩ ∈ t.shape := List.get_mem t.shape 1 h1lt
      have hdvd : t.shape.get ⟨1, h1lt⟩ ∣ t.shape.prod := List.dvd_prod hmem
      rw [hprod] at hdvd
      exact Nat.dvd_one.mp hdvd
    have hifm : t.shape.get? 1 = some 1 := by
      rw [List.get?_eq_get h1lt, hifm1]
    rw [if_neg (show ¬ (node.op_type ∈ ["MatMul"]) by rw [hb]; decide),
      if_pos (show node.op_type ∈ ["Conv"] by rw [hb]; decide), if_neg hbint,
      hshp, hifm, hg]
    dsimp only
    rw [if_neg (not_not_intro (Or.inr rfl))]
    by_cases hg1 : g > 1
    · -- depthwise path: delete along axis 0 (exempt), then update group
      rw [if_pos hg1, rmtc_scalar t (decode_o s) 0 hscal]
      dsimp only
      rw [List.get?_eq_get h0lt]
      dsimp only
      refine ⟨_, rfl, ?_, ?_, ?_⟩
      · simp [Model.setNode, Model.set_initializer, Model.set_tensor_sparsity, hinit]
      · simp [Model.setNode, Model.set_initializer, Model.set_tensor_sparsity, hshp]
      · rw [sparsity_set_spar, if_pos rfl]
    · -- dense path: two exempt deletions
      rw [if_neg hg1, rmtc_scalar t (decode_i s) 1 hscal]
      dsimp only
      rw [rmtc_scalar t (decode_o s) 0 hscal]
      dsimp only
      refine ⟨_, rfl, ?_, ?_, ?_⟩
      · simp [Model.set_initializer, Model.set_tensor_sparsity, hinit]
      · simp [Model.set_initializer, Model.set_tensor_sparsity, hshp]
      · rw [sparsity_set_spar, if_pos rfl]

/-- Witness model for C10 (amended): a Conv node (group 5) whose
single-element rank-4 weight carries the prefixed mask containing `"o0"`. -/
def witC10_model : Model :=
  ⟨[⟨"cv", "Conv", ["xc3", "wc3"], ["yc3"], some 5⟩],
   fun t => if t = "wc3" then some (.pyset {MElem.o 0}) else none,
   fun t => if t = "wc3" then some ⟨[1, 1, 1, 1], [2]⟩ else none,
   fun t => if t = "wc3" then [1, 1, 1, 1] else []⟩

theorem claim_C10_witness :
    witC10_model.inits "wc3" = some ⟨[1, 1, 1, 1], [2]⟩ ∧
    ({MElem.o 0} : Mask) ≠ ∅ ∧
    ∃ m', remove_tensor witC10_model 0 "wc3" false = .ok (m', true) ∧
      m'.inits "wc3" = witC10_model.inits "wc3" ∧
      m'.shapes "wc3" = witC10_model.shapes "wc3" ∧
      m'.sparsity "wc3" = some .emptyDict := by
  refine ⟨by decide, by decide, ?_⟩
  exact claim_C10_scalar_exemption_amended witC10_model 0 "wc3" false
    ⟨"cv", "Conv", ["xc3", "wc3"], ["yc3"], some 5⟩ ⟨[1, 1, 1, 1], [2]⟩ {MElem.o 0}
    (by decide) (by decide) (by decide) (by decide) (by decide) (by decide)
    (Or.inr (Or.inr ⟨rfl, by decide, by decide, 5, rfl⟩))

/-- The input-channel extent of a Conv node with weight tensor `t` and
group count `g`: ONNX stores Conv weights as `(M, C/group, kH, kW)`, so the
input-channel count `C` is the weight's second dimension times the group
count.  "Fully depthwise" means `g = C`. -/
def convInputChannelExtent (t : Tensor) (g : Nat) : Nat :=
  ((t.shape.get? 1).getD 0) * g

/-- C5: when Removal reaches an initializer-bearing Conv weight with a
non-empty (decodable, in-range) mask, it raises the unsupported-
configuration assert `"Unknown grouped conv setting"` exactly when the
group count is neither 1 nor the input-channel extent, and otherwise
completes the deletion and marks the sweep changed. -/
theorem claim_C5_conv_group_check (m : Model) (i : Nat) (io : String) (nr : Bool)
    (node : Node) (t : Tensor) (s : Mask) (g dim0 ifm_w : Nat)
    (hn : m.nodes.get? i = some node)
    (hop : node.op_type = "Conv")
    (hinit : m.inits io = some t)
    (hshp : m.shapes io = t.shape)
    (h0 : t.shape.get? 0 = some dim0)
    (h1 : t.shape.get? 1 = some ifm_w)
    (hmask : m.sparsity io = some (.pyset s))
    (hne : s ≠ ∅)
    (hstr : ¬ hasIntElem s)
    (hg : node.group = some g) (hgpos : 1 ≤ g)
    (hir : ∀ k, MElem.i k ∈ s → k < ifm_w)
    (hor : ∀ k, MElem.o k ∈ s → k < dim0) :
    (¬ (g = 1 ∨ g = convInputChannelExtent t g) →
      remove_tensor m i io nr = .error "Unknown grouped conv setting") ∧
    ((g = 1 ∨ g = convInputChannelExtent t g) →
      ∃ m', remove_tensor m i io nr = .ok (m', true)) := by
  have hext : convInputChannelExtent t g = ifm_w * g := by
    unfold convInputChannelExtent
    rw [h1]
    rfl
  have hequiv : (g = 1 ∨ g = ifm_w * g) ↔ (g = 1 ∨ ifm_w = 1) := by
    constructor
    · rintro (hh | hh)
      · exact Or.inl hh
      · right
        have : ifm_w * g = 1 * g := by rw [one_mul]; exact hh.symm
        exact Nat.eq_of_mul_eq_mul_right hgpos this
    · rintro (hh | hh)
      · exact Or.inl hh
      · right; rw [hh, one_mul]
  have hax0 : 0 < t.shape.length := by
    rcases List.get?_eq_some.mp h0 with ⟨hlt, _⟩
    exact hlt
  have hax1 : 1 < t.shape.length := by
    rcases List.get?_eq_some.mp h1 with ⟨hlt, _⟩
    exact hlt
  have hget0 : t.shape.get ⟨0, hax0⟩ = dim0 := by
    rcases List.get?_eq_some.mp h0 with ⟨hlt, hv⟩
    exact hv
  have hget1 : t.shape.get ⟨1, hax1⟩ = ifm_w := by
    rcases List.get?_eq_some.mp h1 with ⟨hlt, hv⟩
    exact hv
  unfold remove_tensor
  rw [hn]
  simp only [Model.get_tensor_sparsity, Model.get_initializer, Model.get_tensor_shape]
  rw [hmask, hinit]
  dsimp only
  rw [if_neg (show ¬ (node.op_type ∈ ["MatMul"]) by rw [hop]; decide),
    if_pos (show node.op_type ∈ ["Conv"] by rw [hop]; decide), if_neg hstr, hshp, h1, hg]
  dsimp only
  constructor
  · intro hbad
    have hbad' : ¬ (g = 1 ∨ ifm_w = 1) := by
      intro hh
      exact hbad (by rw [hext]; exact hequiv.mpr hh)
    rw [if_pos hbad']
  · intro hok
    have hok' : g = 1 ∨ ifm_w = 1 := hequiv.mp (by rw [hext] at hok; exact hok)
    rw [if_neg (not_not_intro hok')]
    by_cases hg1 : g > 1
    · rw [if_pos hg1]
      obtain ⟨u, hu, hulen, _⟩ := rmtc_ok t (decode_o s) 0 hax0 (decode_o_all_int s)
        (by
          intro x hx
          obtain ⟨k, rfl, hk⟩ := mem_decode_o_elim s x hx
          rw [hget0]
          exact hor k hk)
      rw [hu]
      dsimp only
      have hu0 : 0 < u.shape.length := by rw [hulen]; exact hax0
      rw [List.get?_eq_get hu0]
      dsimp only
      exact ⟨_, rfl⟩
    · rw [if_neg hg1]
      obtain ⟨u1, hu1, hulen1, huget1⟩ := rmtc_ok t (decode_i s) 1 hax1 (decode_i_all_int s)
        (by
          intro x hx
          obtain ⟨k, rfl, hk⟩ := mem_decode_i_elim s x hx
          rw [hget1]
          exact hir k hk)
      rw [hu1]
      dsimp only
      have hax0u : 0 < u1.shape.length := by rw [hulen1]; exact hax0
      obtain ⟨u2, hu2, _, _⟩ := rmtc_ok u1 (decode_o s) 0 hax0u (decode_o_all_int s)
        (by
          intro x hx
          obtain ⟨k, rfl, hk⟩ := mem_decode_o_elim s x hx
          have hcopy : u1.shape.get? 0 = t.shape.get? 0 := huget1 0 (by decide)
          rw [List.get?_eq_get hax0u, h0] at hcopy
          injection hcopy with hcopy
          rw [hcopy]
          exact hor k hk)
      rw [hu2]
      dsimp only
      exact ⟨_, rfl⟩

/-- Witness model for C5: a Conv with group 3 and weight shape (4,2,1,1) —
neither dense nor fully depthwise (extent 6). -/
def witC5_model : Model :=
  ⟨[⟨"cv", "Conv", ["xc", "wc"], ["yc"], some 3⟩],
   fun t => if t = "wc" then some (.pyset {MElem.o 1}) else none,
   fun t => if t = "wc" then some ⟨[4, 2, 1, 1], List.replicate 16 0⟩ else none,
   fun t => if t = "wc" then [4, 2, 1, 1] else []⟩

theorem claim_C5_witness :
    ¬ ((3 : Nat) = 1 ∨ (3 : Nat) =
      convInputChannelExtent ⟨[4, 2, 1, 1], List.replicate 16 0⟩ 3) ∧
    remove_tensor witC5_model 0 "wc" false = .error "Unknown grouped conv setting" := by
  have hmain := claim_C5_conv_group_check witC5_model 0 "wc" false
    ⟨"cv", "Conv", ["xc", "wc"], ["yc"], some 3⟩
    ⟨[4, 2, 1, 1], List.replicate 16 0⟩ {MElem.o 1} 3 4 2
    (by decide) rfl (by decide) (by decide) (by decide) (by decide) (by decide)
    (by decide) (by decide) rfl (by decide)
    (fun k hk => by simp at hk)
    (fun k hk => by
      rw [Finset.mem_singleton] at hk
      injection hk with hk
      omega)
  exact ⟨by decide, hmain.1 (by decide)⟩

/-- Counterexample model for C2: two MatMul nodes with initializer-bearing
weights `wb`, `vb`, and a tensor `ab` with no consumer. -/
def cexC2_model : Model :=
  ⟨[⟨"m1", "MatMul", ["xb", "wb"], ["yb"], none⟩,
    ⟨"m2", "MatMul", ["ub", "vb"], ["zb"], none⟩],
   fun _ => none,
   fun t => if t = "wb" then some ⟨[2, 2], [1, 2, 3, 4]⟩ else
            if t = "vb" then some ⟨[2, 2], [5, 6, 7, 8]⟩ else none,
   fun _ => []⟩

/-- C2 (counterexample): the claim as stated is false on three counts.
(1) A weight mask whose first-listed element is `"o1"` but whose second is
the plain integer 2 passes Seeding and is installed — only one element is
checked.  (2) The failure message is the fixed string
`"Weight masks must be strings"` for two different tensors — it does not
name the tensor.  (3) With a two-entry spec whose second entry fails, the
first entry's mask is already installed when the assert fires. -/
theorem claim_C2_cex :
    (apply_masks_go cexC2_model [("wb", [MElem.o 1, MElem.n 2])]).2 = none ∧
    (apply_masks_go cexC2_model [("wb", [MElem.o 1, MElem.n 2])]).1.sparsity "wb"
      = some (.pyset {MElem.o 1, MElem.n 2}) ∧
    (apply_masks_go cexC2_model [("wb", [MElem.n 2])]).2
      = some "Weight masks must be strings" ∧
    (apply_masks_go cexC2_model [("vb", [MElem.n 2])]).2
      = some "Weight masks must be strings" ∧
    (apply_masks_go cexC2_model [("ab", [MElem.n 5]), ("wb", [MElem.n 2])]).2
      = some "Weight masks must be strings" ∧
    (apply_masks_go cexC2_model [("ab", [MElem.n 5]), ("wb", [MElem.n 2])]).1.sparsity "ab"
      = some (.pyset {MElem.n 5}) := by
  refine ⟨by decide, by decide, by decide, by decide, by decide, by decide⟩

/-- C2 (amended): for a prune-spec entry naming the initializer-bearing
second input of a Conv/MatMul consumer, Seeding checks only one element of
the supplied mask — the first in iteration order: if it is an `iX`/`oX`
string the whole mask is installed unchecked; otherwise the entry fails
with one of two fixed assert messages that do not name the tensor, leaving
the masks of entries processed earlier in the same call installed. -/
theorem claim_C2_first_element_check_amended (m : Model) (key : String)
    (val : List MElem) (e : MElem) (rest : List (String × List MElem)) (c : Node)
    (hcons : m.find_consumer key = some c)
    (hcop : c.op_type ∈ ["Conv", "MatMul"])
    (hsecond : c.input.get? 1 = some key)
    (hinit : (m.get_initializer key).isSome = true)
    (hhead : val.head? = some e) :
    ((e.isIPref = true ∨ e.isOPref = true) →
      apply_masks_go m ((key, val) :: rest) =
        apply_masks_go (m.set_tensor_sparsity key (.pyset val.toFinset)) rest) ∧
    (e.isStr = false →
      apply_masks_go m ((key, val) :: rest) = (m, some "Weight masks must be strings")) ∧
    (e.isStr = true → ¬ (e.isIPref = true ∨ e.isOPref = true) →
      apply_masks_go m ((key, val) :: rest) =
        (m, some "Weight masks must be formatted iX or oX")) := by
  have hstr : e.isIPref = true ∨ e.isOPref = true → e.isStr = true := by
    rintro (hp | hp)
    · match e, hp with
      | .i k, _ => rfl
    · match e, hp with
      | .o k, _ => rfl
  simp only [apply_masks_go]
  rw [hcons]
  dsimp only
  rw [if_pos hcop, hsecond]
  dsimp only
  rw [if_pos ⟨rfl, hinit⟩, hhead]
  dsimp only
  refine ⟨?_, ?_, ?_⟩
  · intro hp
    rw [if_neg (by rw [hstr hp]; decide), if_neg (not_not_intro hp)]
  · intro hns
    rw [if_pos hns]
  · intro hs hnp
    rw [if_neg (by rw [hs]; decide), if_pos hnp]

theorem claim_C2_witness :
    cexC2_model.find_consumer "wb" = some ⟨"m1", "MatMul", ["xb", "wb"], ["yb"], none⟩ ∧
    (cexC2_model.get_initializer "wb").isSome = true ∧
    ((MElem.o 1).isIPref = true ∨ (MElem.o 1).isOPref = true →
      apply_masks_go cexC2_model [("wb", [MElem.o 1, MElem.n 2])] =
        apply_masks_go (cexC2_model.set_tensor_sparsity "wb"
          (.pyset ([MElem.o 1, MElem.n 2]).toFinset)) []) ∧
    ((MElem.o 1).isStr = false →
      apply_masks_go cexC2_model [("wb", [MElem.o 1, MElem.n 2])] =
        (cexC2_model, some "Weight masks must be strings")) ∧
    ((MElem.o 1).isStr = true → ¬ ((MElem.o 1).isIPref = true ∨ (MElem.o 1).isOPref = true) →
      apply_masks_go cexC2_model [("wb", [MElem.o 1, MElem.n 2])] =
        (cexC2_model, some "Weight masks must be formatted iX or oX")) := by
  refine ⟨by decide, by decide, ?_⟩
  exact claim_C2_first_element_check_amended cexC2_model "wb"
    [MElem.o 1, MElem.n 2] (MElem.o 1) []
    ⟨"m1", "MatMul", ["xb", "wb"], ["yb"], none⟩
    (by decide) (by decide) (by decide) (by decide) (by decide)

/-- The procedure §4.4 of the spec prescribes, stated from the spec's
words: run Seeding once, Propagation once, Removal once, in that order,
discarding each stage's changed flag, and return with a `False` flag (the
outer fixpoint loop is the external driver's job). -/
def seedPropagateRemoveOnce (spec : List (String × List MElem)) (m : Model) :
    Except String (Model × Bool) :=
  match applyMasksApply spec m with
  | .error e => .error e
  | .ok (m1, _) =>
    match propagateMasksApply m1 with
    | .error e => .error e
    | .ok (m2, _) =>
      match removeMaskedChannelsApply m2 with
      | .error e => .error e
      | .ok (m3, _) => .ok (m3, false)

/-- C6: once its preconditions pass, the orchestrator is exactly the
one-shot Seed → Propagate → Remove composition: each stage runs once, the
stages' changed flags are discarded (no internal looping), and the returned
flag is `False`. -/
theorem claim_C6_orchestrator_one_shot (spec : List (String × List MElem)) (m : Model)
    (hbias : (get_nodes_by_op_type m "Conv").filter (fun n => n.input.length = 3) = [])
    (hdyn : dyn_weight_nodes m
      (get_nodes_by_op_type m "Conv" ++ get_nodes_by_op_type m "MatMul") = .ok []) :
    pruneChannelsApply spec m = seedPropagateRemoveOnce spec m := by
  unfold pruneChannelsApply seedPropagateRemoveOnce
  dsimp only
  rw [hbias, if_neg (not_not_intro rfl), hdyn]
  dsimp only
  rw [if_neg (not_not_intro rfl)]
  unfold Model.transform
  rcases hA : applyMasksApply spec m with e | ⟨m1, b1⟩
  · rfl
  · dsimp only
    rcases hP : propagateMasksApply m1 with e | ⟨m2, b2⟩
    · rfl
    · dsimp only
      rcases hR : removeMaskedChannelsApply m2 with e | ⟨m3, b3⟩
      · rfl
      · rfl

def witC6_model : Model := ⟨[], fun _ => none, fun _ => none, fun _ => []⟩

theorem claim_C6_witness :
    (get_nodes_by_op_type witC6_model "Conv").filter (fun n => n.input.length = 3) = [] ∧
    dyn_weight_nodes witC6_model
      (get_nodes_by_op_type witC6_model "Conv" ++
       get_nodes_by_op_type witC6_model "MatMul") = .ok [] ∧
    pruneChannelsApply [] witC6_model = seedPropagateRemoveOnce [] witC6_model :=
  ⟨rfl, rfl, claim_C6_orchestrator_one_shot [] witC6_model rfl rfl⟩
